import Mathlib

/-!
Shallow embedding of the Hierarchical Wallet Ledger & Profit-Distribution
Engine of the `backend` repository (FastAPI + SQLAlchemy + PostgreSQL).

The database session is modelled as an explicit record of tables (`DB`);
each service function of `app/services/wallet.py`, `app/services/purchases.py`,
`app/services/pricing.py` and `app/services/tree.py` becomes a pure Lean
function threading the `DB` state in an `Except` monad.  A raised Python
exception is an `Except.error`: the enclosing transaction is rolled back, so
an error result carries no state change.  Random UUID transaction ids are
passed in as explicit `tx : Nat` parameters; random coupon-code candidates
become an explicit generator argument.  PostgreSQL `ltree` paths are label
sequences; a label `u<id>` is represented by the id itself (`List Nat`).
All money is `Int` cents, exactly as the BigInteger columns.
-/

namespace Backend

/-- Error taxonomy of the services: `WalletError` and its subclass
`InsufficientBalance` from `wallet.py`, `PurchaseError` from `purchases.py`,
and `HTTPException` raised by `pricing.py`. -/
inductive Err where
  | walletError (msg : String)
  | insufficientBalance (msg : String)
  | purchaseError (msg : String)
  | httpError (status : Nat) (msg : String)
deriving Repr, DecidableEq

/-- Computation that may raise one of the service exceptions. -/
abbrev M (α : Type) := Except Err α

deriving instance DecidableEq for Except

/-- Row of the `users` table (fields used by the engine). -/
structure UserRec where
  id : Nat
  role : String
  parent_id : Option Nat
  path : List Nat
  depth : Nat
  is_active : Bool
deriving Repr, DecidableEq

/-- Row of the append-only `wallet_ledger` table (fields used by the engine). -/
structure LedgerRow where
  tx_id : Nat
  user_id : Nat
  entry_kind : String
  amount_cents : Int
  related_user_id : Option Nat
  plan_id : Option Nat
deriving Repr, DecidableEq

/-- Row of `seller_edge_plan_prices` (model `SellerEdgePlanPrice`). -/
structure EdgeRow where
  parent_user_id : Nat
  child_user_id : Nat
  plan_id : Nat
  price_cents : Int
  currency : String
  is_admin_override : Bool
  updated_by_user_id : Nat
deriving Repr, DecidableEq

/-- Row of `admin_plan_base_prices` (model `AdminPlanBasePrice`). -/
structure BaseRow where
  plan_id : Nat
  base_price_cents : Int
  currency : String
deriving Repr, DecidableEq

/-- Row of the `plans` table (fields used by purchases). -/
structure PlanRec where
  id : Nat
  is_active : Bool
deriving Repr, DecidableEq

/-- Row of the `coupons` table (fields used by purchases). -/
structure CouponRec where
  coupon_code : String
  plan_id : Nat
  status : String
  owner_user_id : Nat
deriving Repr, DecidableEq

/-- Row of the `orders` table (fields used by purchases). -/
structure OrderRec where
  id : Nat
  tx_id : Nat
  buyer_user_id : Nat
  plan_id : Nat
  quantity : Nat
  unit_price_cents : Int
  total_paid_cents : Int
  status : String
deriving Repr, DecidableEq

/-- Row of the `order_items` table. -/
structure OrderItemRec where
  order_id : Nat
  coupon_code : String
deriving Repr, DecidableEq

/-- Row of the `coupon_events` table (tx recorded inside the meta payload). -/
structure CouponEventRec where
  coupon_code : String
  event_type : String
  actor_user_id : Nat
  tx_id : Nat
deriving Repr, DecidableEq

/-- The relational store: one field per table the engine touches.
`accounts` maps user id to `balance_cents` (the `wallet_accounts` table). -/
structure DB where
  users : List UserRec
  accounts : List (Nat × Int)
  ledger : List LedgerRow
  plans : List PlanRec
  base_prices : List BaseRow
  edges : List EdgeRow
  coupons : List CouponRec
  orders : List OrderRec
  order_items : List OrderItemRec
  coupon_events : List CouponEventRec
deriving Repr, DecidableEq

/-- SELECT a user row by primary key (first match). -/
def findUser (db : DB) (uid : Nat) : Option UserRec :=
  db.users.find? (fun u => u.id = uid)

/-- Role of the user stored under the given id, when present. -/
def roleOf (db : DB) (uid : Nat) : Option String :=
  (findUser db uid).map (fun u => u.role)

/-- SELECT balance_cents of a wallet account, if the row exists (first match,
mirroring the primary-key lookup). -/
def getBal : List (Nat × Int) → Nat → Option Int
  | [], _ => none
  | p :: rest, uid => if p.1 = uid then some p.2 else getBal rest uid

/-- UPDATE wallet_accounts SET balance_cents = v WHERE user_id = uid. -/
def setBal : List (Nat × Int) → Nat → Int → List (Nat × Int)
  | [], _, _ => []
  | p :: rest, uid, v => (if p.1 = uid then (p.1, v) else p) :: setBal rest uid v

/-- Update the cached balance of one account inside the store. -/
def updBal (db : DB) (uid : Nat) (v : Int) : DB :=
  { db with accounts := setBal db.accounts uid v }

/-- Append one immutable ledger row (the ledger is append-only). -/
def addLedger (db : DB) (row : LedgerRow) : DB :=
  { db with ledger := db.ledger ++ [row] }

/-- Python `wallet._ensure_wallet_account`: verify the user exists, then
idempotently create a zero-balance account row. -/
def ensure_wallet_account (db : DB) (uid : Nat) : M DB :=
  if (findUser db uid).isNone then
    .error (.walletError "User not found.")
  else if (getBal db.accounts uid).isSome then
    .ok db
  else
    .ok { db with accounts := db.accounts ++ [(uid, 0)] }

/-- Python `sorted(set(user_ids))`: duplicates removed, ascending order.
This is the single canonical lock-acquisition order of `_lock_accounts`. -/
def canonicalIds (userIds : List Nat) : List Nat :=
  List.insertionSort (· ≤ ·) userIds.dedup

/-- Python `wallet._lock_accounts`: canonicalise the requested ids, ensure
every account exists, then lock and fetch them all together.  The returned
list is the sequence of user ids in lock-acquisition order. -/
def lock_accounts (db : DB) (userIds : List Nat) : M (DB × List Nat) := do
  let ids := canonicalIds userIds
  let db ← ids.foldlM (fun d uid => ensure_wallet_account d uid) db
  if ids.all (fun uid => (getBal db.accounts uid).isSome) then
    .ok (db, ids)
  else
    .error (.walletError "Wallet accounts not found.")

/-- Python `wallet.get_balance`: ensure the account exists, then read it. -/
def get_balance (db : DB) (uid : Nat) : M (DB × Int) := do
  let db ← ensure_wallet_account db uid
  match getBal db.accounts uid with
  | some b => .ok (db, b)
  | none => .error (.walletError "Wallet account missing.")

/-- Python `wallet.admin_topup`: admin mints money for a user; single
unbalanced `topup` ledger row. -/
def admin_topup (db : DB) (admin : UserRec) (target : Nat) (amount : Int)
    (tx : Nat) : M (DB × LedgerRow) := do
  if admin.role ≠ "admin" then
    .error (.walletError "Only admin can top up.")
  else if amount ≤ 0 then
    .error (.walletError "Amount must be positive.")
  else do
    let lockres ← lock_accounts db [target]
    let db := lockres.1
    match getBal db.accounts target with
    | none => .error (.walletError "Wallet accounts not found.")
    | some bal =>
      let db := updBal db target (bal + amount)
      let row : LedgerRow :=
        { tx_id := tx, user_id := target, entry_kind := "topup",
          amount_cents := amount, related_user_id := some admin.id,
          plan_id := none }
      .ok (addLedger db row, row)

/-- Python `wallet.transfer_between_users`: generic transfer, two-row
`transfer_out` / `transfer_in` ledger pair under one tx id. -/
def transfer_between_users (db : DB) (from_user to_user : Nat) (amount : Int)
    (tx : Nat) : M (DB × List LedgerRow) := do
  if amount ≤ 0 then
    .error (.walletError "Amount must be positive.")
  else if from_user = to_user then
    .error (.walletError "Cannot transfer to same user.")
  else do
    let lockres ← lock_accounts db [from_user, to_user]
    let db := lockres.1
    match getBal db.accounts from_user, getBal db.accounts to_user with
    | some from_bal, some to_bal =>
      if from_bal < amount then
        .error (.insufficientBalance "Insufficient balance.")
      else
        let db := updBal db from_user (from_bal - amount)
        let db := updBal db to_user (to_bal + amount)
        let out_entry : LedgerRow :=
          { tx_id := tx, user_id := from_user, entry_kind := "transfer_out",
            amount_cents := -amount, related_user_id := some to_user,
            plan_id := none }
        let in_entry : LedgerRow :=
          { tx_id := tx, user_id := to_user, entry_kind := "transfer_in",
            amount_cents := amount, related_user_id := some from_user,
            plan_id := none }
        .ok (addLedger (addLedger db out_entry) in_entry, [out_entry, in_entry])
    | _, _ => .error (.walletError "Wallet accounts not found.")

/-- Two-row `transfer_out` / `transfer_in` pair used by the set-balance and
delete-user operations (`payer` loses `delta`, `payee` gains `delta`). -/
def transferPair (tx payer payee : Nat) (delta : Int) : List LedgerRow :=
  [{ tx_id := tx, user_id := payer, entry_kind := "transfer_out",
     amount_cents := -delta, related_user_id := some payee, plan_id := none },
   { tx_id := tx, user_id := payee, entry_kind := "transfer_in",
     amount_cents := delta, related_user_id := some payer, plan_id := none }]

/-- Python `wallet.admin_set_balance_via_parent`: admin sets a user's balance
to `target_balance` by transferring the delta between the user's parent and
the user, as a `transfer_out` / `transfer_in` ledger pair. -/
def admin_set_balance_via_parent (db : DB) (admin : UserRec) (target_user_id : Nat)
    (target_balance : Int) (tx : Nat) : M (DB × List LedgerRow) := do
  if admin.role ≠ "admin" then
    .error (.walletError "Only admin can set balance.")
  else if target_balance < 0 then
    .error (.walletError "Target balance cannot be negative.")
  else
    match findUser db target_user_id with
    | none => .error (.walletError "User not found.")
    | some target_user =>
      match target_user.parent_id with
      | none => .error (.walletError "Target user has no parent; cannot transfer via parent.")
      | some parent_id => do
        let lockres ← lock_accounts db [target_user_id, parent_id]
        let db := lockres.1
        match getBal db.accounts target_user_id, getBal db.accounts parent_id with
        | some current, some parent_bal =>
          if target_balance = current then
            .error (.walletError "Target balance equals current balance.")
          else if target_balance > current then
            let delta := target_balance - current
            if parent_bal < delta then
              .error (.insufficientBalance "Parent has insufficient balance.")
            else
              let db := updBal db parent_id (parent_bal - delta)
              let db := updBal db target_user_id (current + delta)
              let rows := transferPair tx parent_id target_user_id delta
              .ok (rows.foldl addLedger db, rows)
          else
            let delta := current - target_balance
            let db := updBal db parent_id (parent_bal + delta)
            let db := updBal db target_user_id (current - delta)
            let rows := transferPair tx target_user_id parent_id delta
            .ok (rows.foldl addLedger db, rows)
        | _, _ => .error (.walletError "Wallet accounts not found.")

/-- Python `wallet.seller_set_balance_via_parent`: same delta-transfer, but the
actor must be a seller and the target must be its direct child. -/
def seller_set_balance_via_parent (db : DB) (seller : UserRec) (target_user_id : Nat)
    (target_balance : Int) (tx : Nat) : M (DB × List LedgerRow) := do
  if seller.role ≠ "seller" then
    .error (.walletError "Only seller can set balance here.")
  else if target_balance < 0 then
    .error (.walletError "Target balance cannot be negative.")
  else
    match findUser db target_user_id with
    | none => .error (.walletError "User not found.")
    | some target_user =>
      if target_user.parent_id ≠ some seller.id then
        .error (.walletError "Forbidden: can only set balance for direct children.")
      else do
        let parent_id := seller.id
        let lockres ← lock_accounts db [target_user_id, parent_id]
        let db := lockres.1
        match getBal db.accounts target_user_id, getBal db.accounts parent_id with
        | some current, some parent_bal =>
          if target_balance = current then
            .error (.walletError "Target balance equals current balance.")
          else if target_balance > current then
            let delta := target_balance - current
            if parent_bal < delta then
              .error (.insufficientBalance "Insufficient seller balance.")
            else
              let db := updBal db parent_id (parent_bal - delta)
              let db := updBal db target_user_id (current + delta)
              let rows := transferPair tx parent_id target_user_id delta
              .ok (rows.foldl addLedger db, rows)
          else
            let delta := current - target_balance
            let db := updBal db parent_id (parent_bal + delta)
            let db := updBal db target_user_id (current - delta)
            let rows := transferPair tx target_user_id parent_id delta
            .ok (rows.foldl addLedger db, rows)
        | _, _ => .error (.walletError "Wallet accounts not found.")

/-- Python `wallet.admin_delete_user_return_balance_to_parent`: moves the
target's positive balance to its parent, then HARD-deletes the wallet account
row and the user row (`DELETE FROM wallet_accounts`, `DELETE FROM users`). -/
def admin_delete_user_return_balance_to_parent (db : DB) (admin : UserRec)
    (target_user_id : Nat) (tx : Nat) : M (DB × List LedgerRow) := do
  if admin.role ≠ "admin" then
    .error (.walletError "Only admin can delete users.")
  else
    match findUser db target_user_id with
    | none => .error (.walletError "User not found.")
    | some target_user =>
      match target_user.parent_id with
      | none => .error (.walletError "User has no parent.")
      | some parent_id => do
        let lockres ← lock_accounts db [target_user.id, parent_id]
        let db := lockres.1
        match getBal db.accounts target_user.id, getBal db.accounts parent_id with
        | some child_balance, some parent_bal =>
          let step :=
            if child_balance > 0 then
              let db := updBal db parent_id (parent_bal + child_balance)
              let db := updBal db target_user.id 0
              let rows := transferPair tx target_user.id parent_id child_balance
              (rows.foldl addLedger db, rows)
            else
              (db, [])
          let db := step.1
          let db := { db with
            accounts := db.accounts.filter (fun p => p.1 ≠ target_user.id),
            users := db.users.filter (fun u => u.id ≠ target_user.id) }
          .ok (db, step.2)
        | _, _ => .error (.walletError "Wallet accounts not found.")

/-- Ltree containment `child.path <@ ancestor.path`: the candidate's path is
descendant-or-equal, i.e. the ancestor path is a prefix of it. -/
def pathDescOf (candidate ancestor : List Nat) : Bool :=
  ancestor.isPrefixOf candidate

/-- Subtree query of the seller delete operation: ids of every user whose path
is descendant-or-equal to the target's path (`User.path <@ target.path`). -/
def subtreeIds (db : DB) (target_user : UserRec) : List Nat :=
  (db.users.filter (fun u => pathDescOf u.path target_user.path)).map (fun u => u.id)

/-- Logical deactivation of the subtree members (`is_active = false`). -/
def deactivateIn (ids : List Nat) (u : UserRec) : UserRec :=
  if u.id ∈ ids then { u with is_active := false } else u

/-- One iteration of the balance roll-up loop of
`seller_delete_user_return_balance_to_parent`: move `uid`'s positive balance
to the owner with a `transfer_out` / `transfer_in` pair. -/
def rollupStep (owner_id tx : Nat) (acc : DB × List LedgerRow) (uid : Nat) :
    DB × List LedgerRow :=
  let db := acc.1
  if uid = owner_id then acc
  else
    match getBal db.accounts uid, getBal db.accounts owner_id with
    | some bal, some owner_bal =>
      if bal ≤ 0 then acc
      else
        let db := updBal db owner_id (owner_bal + bal)
        let db := updBal db uid 0
        let rows := transferPair tx uid owner_id bal
        (rows.foldl addLedger db, acc.2 ++ rows)
    | _, _ => acc

/-- Python `wallet.seller_delete_user_return_balance_to_parent`: compute the
subtree of the target via the ltree descendant query, lock owner + subtree,
roll every positive subtree balance up to the owner, then mark the whole
subtree `is_active = false`.  No user row or ledger row is deleted. -/
def seller_delete_user_return_balance_to_parent (db : DB) (seller : UserRec)
    (target_user_id : Nat) (tx : Nat) : M (DB × List LedgerRow) := do
  if seller.role ≠ "seller" then
    .error (.walletError "Only seller can delete users here.")
  else
    match findUser db target_user_id with
    | none => .error (.walletError "User not found.")
    | some target_user =>
      if target_user.parent_id ≠ some seller.id then
        .error (.walletError "Forbidden: can only delete direct children.")
      else do
        let owner_id := seller.id
        let subtree0 := subtreeIds db target_user
        let subtree_ids :=
          if target_user.id ∈ subtree0 then subtree0 else subtree0 ++ [target_user.id]
        let lockres ← lock_accounts db (owner_id :: subtree_ids)
        let db := lockres.1
        let result := subtree_ids.foldl (rollupStep owner_id tx) (db, [])
        let db := result.1
        let db := { db with users := db.users.map (deactivateIn subtree_ids) }
        .ok (db, result.2)

/-- Resolved acquisition cost of a parent for a plan (`pricing.ParentCost`). -/
structure ParentCost where
  parent_cost_cents : Int
  currency : String
  source : String
deriving Repr, DecidableEq

/-- SELECT an edge-price row by its (parent, child, plan) key. -/
def findEdge (db : DB) (parent child plan : Nat) : Option EdgeRow :=
  db.edges.find? (fun e =>
    e.parent_user_id = parent ∧ e.child_user_id = child ∧ e.plan_id = plan)

/-- SELECT the platform base-price row for a plan. -/
def findBase (db : DB) (plan : Nat) : Option BaseRow :=
  db.base_prices.find? (fun b => b.plan_id = plan)

/-- Python `pricing.determine_parent_cost`: the root (`admin`) pays the platform
base price; anyone else pays the incoming edge price from its own parent. -/
def determine_parent_cost (db : DB) (parent_user_id plan_id : Nat) : M ParentCost :=
  match findUser db parent_user_id with
  | none => .error (.httpError 404 "User not found")
  | some parent =>
    if parent.role = "admin" then
      match findBase db plan_id with
      | none => .error (.httpError 400 "Admin base price not set for this plan_id")
      | some base =>
        .ok { parent_cost_cents := base.base_price_cents,
              currency := base.currency, source := "admin_base_price" }
    else
      match parent.parent_id with
      | none => .error (.httpError 400 "Parent has no parent_id; cannot determine parent cost")
      | some gp =>
        match findEdge db gp parent.id plan_id with
        | none => .error (.httpError 400 "Parent cost not found: missing edge price")
        | some edge =>
          .ok { parent_cost_cents := edge.price_cents,
                currency := edge.currency, source := "edge_price" }

/-- Python `pricing._ensure_child_is_direct`: the edge must be a real direct
parent → child link of the tree. -/
def ensure_child_is_direct (db : DB) (parent_user_id child_user_id : Nat) : M Unit :=
  match findUser db child_user_id with
  | some child =>
    if child.parent_id = some parent_user_id then .ok ()
    else .error (.httpError 400 "child_user_id is not a direct child of current user")
  | none => .error (.httpError 400 "child_user_id is not a direct child of current user")

/-- Python `seller_plans.seller_has_plan_enabled`: a seller has a plan iff some
incoming edge price (any parent → seller) exists for that plan. -/
def seller_has_plan_enabled (db : DB) (seller_user_id plan_id : Nat) : Bool :=
  db.edges.any (fun e => e.child_user_id = seller_user_id ∧ e.plan_id = plan_id)

/-- Upsert of an edge-price row: in-place update when the key exists, append
otherwise. -/
def upsertEdgeRow (db : DB) (parent child plan : Nat) (row : EdgeRow) : DB :=
  if (findEdge db parent child plan).isSome then
    { db with edges := db.edges.map (fun e =>
        if e.parent_user_id = parent ∧ e.child_user_id = child ∧ e.plan_id = plan
        then row else e) }
  else
    { db with edges := db.edges ++ [row] }

/-- Python `pricing.upsert_edge_price_seller`: non-root upsert; requires a
direct child, an enabled plan, matching currency and the margin floor
`price_cents ≥ parent cost`; refuses to touch an admin-overridden row. -/
def upsert_edge_price_seller (db : DB) (current_user_id child_user_id plan_id : Nat)
    (price_cents : Int) (currency : String) : M (DB × EdgeRow) := do
  let _ ← ensure_child_is_direct db current_user_id child_user_id
  if ¬ seller_has_plan_enabled db current_user_id plan_id then
    .error (.httpError 400 "Plan not enabled for this seller.")
  else do
    let parent_cost ← determine_parent_cost db current_user_id plan_id
    if currency ≠ parent_cost.currency then
      .error (.httpError 400 "Currency mismatch.")
    else if price_cents < parent_cost.parent_cost_cents then
      .error (.httpError 400 "Price too low. Must be >= parent cost")
    else
      match findEdge db current_user_id child_user_id plan_id with
      | some row =>
        if row.is_admin_override then
          .error (.httpError 403 "This edge price is admin overridden and cannot be changed")
        else
          let row' : EdgeRow :=
            { row with
              price_cents := price_cents
              currency := currency
              updated_by_user_id := current_user_id }
          .ok (upsertEdgeRow db current_user_id child_user_id plan_id row', row')
      | none =>
        let row' : EdgeRow :=
          { parent_user_id := current_user_id, child_user_id := child_user_id,
            plan_id := plan_id, price_cents := price_cents, currency := currency,
            is_admin_override := false, updated_by_user_id := current_user_id }
        .ok (upsertEdgeRow db current_user_id child_user_id plan_id row', row')

/-- Python `pricing.upsert_edge_price_admin_override`: the root may set any
direct-link edge, bypassing the margin floor, and marks it
`is_admin_override = true`. -/
def upsert_edge_price_admin_override (db : DB) (admin_user_id parent_user_id
    child_user_id plan_id : Nat) (price_cents : Int) (currency : String) :
    M (DB × EdgeRow) := do
  let _ ← ensure_child_is_direct db parent_user_id child_user_id
  let row' : EdgeRow :=
    match findEdge db parent_user_id child_user_id plan_id with
    | some row =>
      { row with
        price_cents := price_cents
        currency := currency
        is_admin_override := true
        updated_by_user_id := admin_user_id }
    | none =>
      { parent_user_id := parent_user_id, child_user_id := child_user_id,
        plan_id := plan_id, price_cents := price_cents, currency := currency,
        is_admin_override := true, updated_by_user_id := admin_user_id }
  .ok (upsertEdgeRow db parent_user_id child_user_id plan_id row', row')

/-- Python `purchases._get_user`. -/
def get_user (db : DB) (uid : Nat) : M UserRec :=
  match findUser db uid with
  | none => .error (.purchaseError "User not found.")
  | some u => .ok u

/-- Python `purchases._get_plan`: the plan must exist and be active. -/
def get_plan (db : DB) (plan_id : Nat) : M PlanRec :=
  match db.plans.find? (fun p => p.id = plan_id) with
  | none => .error (.purchaseError "Plan not found.")
  | some p =>
    if p.is_active then .ok p else .error (.purchaseError "Plan is not active.")

/-- Python `purchases._get_admin_base_price_cents`. -/
def get_admin_base_price_cents (db : DB) (plan_id : Nat) : M Int :=
  match findBase db plan_id with
  | none => .error (.purchaseError "Admin base price missing for plan.")
  | some b => .ok b.base_price_cents

/-- Python `purchases._get_edge_price_cents`. -/
def get_edge_price_cents (db : DB) (parent child plan : Nat) : M Int :=
  match findEdge db parent child plan with
  | none => .error (.purchaseError "Edge price missing.")
  | some e => .ok e.price_cents

/-- Python-dict accumulation `d[k] = d.get(k, 0) + v`: update in place when the
key exists, otherwise append (insertion order preserved). -/
def addCredit (credits : List (Nat × Int)) (uid : Nat) (v : Int) : List (Nat × Int) :=
  if (getBal credits uid).isSome then
    credits.map (fun p => if p.1 = uid then (p.1, p.2 + v) else p)
  else
    credits ++ [(uid, v)]

/-- Parent acquisition cost inside the walk of `purchase_plan_and_distribute`:
the platform base price for the root (`admin`), otherwise the grandparent →
parent edge price. -/
def parentCostInWalk (db : DB) (plan_id : Nat) (base_cents : Int)
    (parent : UserRec) : M Int :=
  if parent.role = "admin" then
    pure base_cents
  else
    match parent.parent_id with
    | none => .error (.purchaseError "Non-admin parent has no parent_id; invalid tree.")
    | some gp => get_edge_price_cents db gp parent.id plan_id

/-- The ancestor walk of `purchase_plan_and_distribute` (the `while True` loop):
climb from the buyer towards the root, accumulating each parent's per-unit
profit, and stop at the first `admin` parent, additionally crediting it the
platform base price.  The Python loop runs without fuel; a chain in an acyclic
tree visits at most `db.users.length` parents, so the caller supplies
`db.users.length + 1` and exhaustion is unreachable on well-formed data. -/
def distributionWalk (db : DB) (plan_id : Nat) (base_cents : Int) :
    Nat → UserRec → List (Nat × Int) → M (List (Nat × Int))
  | 0, _, _ => .error (.purchaseError "Tree broken: reached user without parent before admin.")
  | fuel + 1, current_child, credits =>
    match current_child.parent_id with
    | none => .error (.purchaseError "Tree broken: reached user without parent before admin.")
    | some parent_id => do
      let parent ← get_user db parent_id
      let sell_price ← get_edge_price_cents db parent.id current_child.id plan_id
      let cost ← parentCostInWalk db plan_id base_cents parent
      let profit := sell_price - cost
      if profit < 0 then
        .error (.purchaseError "Pricing invalid: negative profit detected in chain.")
      else
        let credits := if profit > 0 then addCredit credits parent.id profit else credits
        if parent.role = "admin" then
          .ok (addCredit credits parent.id base_cents)
        else
          distributionWalk db plan_id base_cents fuel parent credits

/-- Credit-application loop of `purchase_plan_and_distribute` (step 2): for each
credited user, bump its cached balance and append its ledger rows — an `admin`
user gets an `admin_base_credit` row for `base × quantity` plus a
`profit_credit` row for any margin above it; anyone else gets a single
`profit_credit` row.  Returns the accumulated `total_credits`. -/
def applyCreditsLoop (db : DB) (tx buyer_id plan_id : Nat) (base_cents : Int)
    (quantity : Nat) : List (Nat × Int) → DB → Int → M (DB × Int)
  | [], acc, total => .ok (acc, total)
  | (uid, cents) :: rest, acc, total => do
    match getBal acc.accounts uid with
    | none => .error (.purchaseError "Wallet account missing for credited user.")
    | some bal => do
      let acc := updBal acc uid (bal + cents)
      let user_obj ← get_user db uid
      let acc ←
        if user_obj.role = "admin" then
          let base_total : Int := base_cents * (quantity : Int)
          let admin_profit : Int := max 0 (cents - base_total)
          let base_entry : LedgerRow :=
            { tx_id := tx, user_id := uid, entry_kind := "admin_base_credit",
              amount_cents := base_total, related_user_id := some buyer_id,
              plan_id := some plan_id }
          let acc := addLedger acc base_entry
          if admin_profit > 0 then
            let profit_entry : LedgerRow :=
              { tx_id := tx, user_id := uid, entry_kind := "profit_credit",
                amount_cents := admin_profit, related_user_id := some buyer_id,
                plan_id := some plan_id }
            pure (addLedger acc profit_entry)
          else
            pure acc
        else
          let profit_entry : LedgerRow :=
            { tx_id := tx, user_id := uid, entry_kind := "profit_credit",
              amount_cents := cents, related_user_id := some buyer_id,
              plan_id := some plan_id }
          pure (addLedger acc profit_entry)
      applyCreditsLoop db tx buyer_id plan_id base_cents quantity rest acc (total + cents)

/-- Coupon row created by a purchase for one fresh code. -/
def couponOf (plan_id buyer_id : Nat) (code : String) : CouponRec :=
  { coupon_code := code, plan_id := plan_id, status := "unused",
    owner_user_id := buyer_id }

/-- Order-item row linking one coupon code to the order. -/
def itemOf (order_id : Nat) (code : String) : OrderItemRec :=
  { order_id := order_id, coupon_code := code }

/-- The `generated` coupon event emitted for one fresh code. -/
def eventOf (buyer_id tx : Nat) (code : String) : CouponEventRec :=
  { coupon_code := code, event_type := "generated", actor_user_id := buyer_id,
    tx_id := tx }

/-- Inner collision-checked retry of the coupon generator: up to 20 candidate
codes are tried against the existing codes; the first fresh one wins. -/
def pickCouponCode (existing : List String) (cand : Nat → String) : Option String :=
  (List.range 20).findSome? (fun a =>
    if existing.contains (cand a) then none else some (cand a))

/-- Coupon-issuing loop of `purchase_plan_and_distribute`: for each of the
`quantity` order positions, pick a fresh collision-checked code (failing
fatally when 20 attempts are exhausted), create the coupon owned by the buyer,
the order item, and the `generated` coupon event. -/
def createCouponsLoop (tx plan_id buyer_id order_id : Nat)
    (cand : Nat → Nat → String) : List Nat → DB → List String → M (DB × List String)
  | [], acc, codes => .ok (acc, codes)
  | i :: rest, acc, codes =>
    match pickCouponCode (acc.coupons.map (fun c => c.coupon_code)) (cand i) with
    | none => .error (.purchaseError "Failed to generate unique coupon code.")
    | some code =>
      let acc := { acc with
        coupons := acc.coupons ++ [couponOf plan_id buyer_id code],
        order_items := acc.order_items ++ [itemOf order_id code],
        coupon_events := acc.coupon_events ++ [eventOf buyer_id tx code] }
      createCouponsLoop tx plan_id buyer_id order_id cand rest acc (codes ++ [code])

/-- Return payload of a successful purchase (fields of the Python dict that
carry engine data). -/
structure PurchaseResult where
  tx_id : Nat
  plan_id : Nat
  buyer_user_id : Nat
  purchase_price_cents : Int
  credits_by_user : List (Nat × Int)
  order_id : Nat
  quantity : Nat
  total_paid_cents : Int
  coupon_codes : List String
deriving Repr, DecidableEq

/-- Body of `purchases.purchase_plan_and_distribute` up to the final commit:
price the buyer by its incoming edge, run the distribution walk, scale by
quantity, lock all touched accounts, debit the buyer, apply all credits,
check conservation, create the order, coupons, items and events. -/
def purchase_inner (db0 : DB) (buyer : UserRec) (plan_id quantity tx : Nat)
    (cand : Nat → Nat → String) : M (DB × PurchaseResult) := do
  if quantity < 1 then
    .error (.purchaseError "quantity must be >= 1.")
  else do
    let _ ← get_plan db0 plan_id
    match buyer.parent_id with
    | none => .error (.purchaseError "Buyer has no parent; cannot purchase.")
    | some buyer_parent => do
      let unit_price ← get_edge_price_cents db0 buyer_parent buyer.id plan_id
      let total_paid : Int := unit_price * (quantity : Int)
      let base_cents ← get_admin_base_price_cents db0 plan_id
      let credits_unit ←
        distributionWalk db0 plan_id base_cents (db0.users.length + 1) buyer []
      let credits_scaled := credits_unit.map (fun p => (p.1, p.2 * (quantity : Int)))
      let all_user_ids := buyer.id :: credits_scaled.map (fun p => p.1)
      let db ← ensure_wallet_account db0 buyer.id
      let lockres ← lock_accounts db all_user_ids
      let db := lockres.1
      match getBal db.accounts buyer.id with
      | none => .error (.walletError "Wallet accounts not found.")
      | some buyer_bal =>
        if buyer_bal < total_paid then
          .error (.insufficientBalance "Insufficient balance for purchase.")
        else do
          let db := updBal db buyer.id (buyer_bal - total_paid)
          let debit_entry : LedgerRow :=
            { tx_id := tx, user_id := buyer.id, entry_kind := "purchase_debit",
              amount_cents := -total_paid, related_user_id := some buyer_parent,
              plan_id := some plan_id }
          let db := addLedger db debit_entry
          let creditres ←
            applyCreditsLoop db tx buyer.id plan_id base_cents quantity
              credits_scaled db 0
          let db := creditres.1
          let total_credits := creditres.2
          if total_credits ≠ total_paid then
            .error (.purchaseError "Internal mismatch: credits != purchase.")
          else
            let order : OrderRec :=
              { id := db.orders.length, tx_id := tx, buyer_user_id := buyer.id,
                plan_id := plan_id, quantity := quantity,
                unit_price_cents := unit_price, total_paid_cents := total_paid,
                status := "paid" }
            let db := { db with orders := db.orders ++ [order] }
            let couponres ←
              createCouponsLoop tx plan_id buyer.id order.id cand
                (List.range quantity) db []
            let db := couponres.1
            let codes := couponres.2
            .ok (db,
              { tx_id := tx, plan_id := plan_id, buyer_user_id := buyer.id,
                purchase_price_cents := unit_price,
                credits_by_user := credits_unit, order_id := order.id,
                quantity := quantity, total_paid_cents := total_paid,
                coupon_codes := codes })

/-- Python `purchases.purchase_plan_and_distribute`: the whole body runs inside
one transaction; on success it commits (the new state becomes visible), on any
exception it rolls back (`except: await db.rollback(); raise`), so the
pre-transaction state is what remains observable. -/
def purchase_plan_and_distribute (db : DB) (buyer : UserRec)
    (plan_id quantity tx : Nat) (cand : Nat → Nat → String) :
    M PurchaseResult × DB :=
  match purchase_inner db buyer plan_id quantity tx cand with
  | .error e => (.error e, db)
  | .ok (db', r) => (.ok r, db')

/-- Python `tree.build_user_path`: a user's materialized path is its parent's
path with its own label appended; a root's path is its own label alone.
A label `u<id>` is represented by the id it embeds. -/
def build_user_path (parent_path : Option (List Nat)) (user_id : Nat) : List Nat :=
  match parent_path with
  | none => [user_id]
  | some p => if p = [] then [user_id] else p ++ [user_id]

/-- Bucket path computed by the rollup query of
`seller_balance_history_rollup.py`: `seller_path || subpath(raw_path,
seller_depth + 1, 1)` — the seller's path extended by the single label of the
raw user's path one level below the seller. -/
def bucketPath (seller_path : List Nat) (seller_depth : Nat) (raw_path : List Nat) :
    List Nat :=
  seller_path ++ (raw_path.drop (seller_depth + 1)).take 1

/-- The `directChildBucket` resolution of the rollup query: a row of the seller
itself stays the seller (`CASE WHEN s.raw_user_id = :seller_id`); any other row
is re-identified as the user whose path is `bucketPath` (the `LEFT JOIN
public.users bu` with the `nlevel` guard). -/
def directChildBucket (db : DB) (seller raw : UserRec) : Option Nat :=
  if raw.id = seller.id then some seller.id
  else if seller.depth < raw.path.length then
    (db.users.find? (fun bu =>
      bu.path = bucketPath seller.path seller.depth raw.path)).map (fun u => u.id)
  else none

/-- One row of the user directory is consistent with
`create_user_under_parent`: a root has path `[id]` and depth 0; a child's
parent is in the table, with the child's path `build_user_path(parent.path,
id)` and depth `parent.depth + 1`. -/
def parentOkB (users : List UserRec) (u : UserRec) : Bool :=
  match u.parent_id with
  | none => u.path = [u.id] ∧ u.depth = 0
  | some p => users.any (fun pu =>
      pu.id = p ∧ u.path = pu.path ++ [u.id] ∧ u.depth = pu.depth + 1)

/-- Well-formed user directory: primary keys are unique and every row was
produced by `create_user_under_parent`. -/
def WFTree (users : List UserRec) : Prop :=
  (∀ u ∈ users, ∀ v ∈ users, u.id = v.id → u = v) ∧
  (∀ u ∈ users, parentOkB users u = true)

instance (users : List UserRec) : Decidable (WFTree users) := by
  unfold WFTree
  infer_instance

/-- Signed sum of a group of ledger rows. -/
def rowsSum (rows : List LedgerRow) : Int :=
  (rows.map (fun r => r.amount_cents)).sum

/-- Conservation property of one ledger group: the signed amounts sum to zero,
every row carries the group's tx id, and none of the rows is a mint. -/
def BalancedGroup (tx : Nat) (rows : List LedgerRow) : Prop :=
  rowsSum rows = 0 ∧ ∀ r ∈ rows, r.tx_id = tx ∧ r.entry_kind ≠ "topup"

/-- Equality of two stores outside the wallet-accounts table. -/
def EqExceptAccounts (a b : DB) : Prop :=
  a.users = b.users ∧ a.ledger = b.ledger ∧ a.plans = b.plans ∧
  a.base_prices = b.base_prices ∧ a.edges = b.edges ∧ a.coupons = b.coupons ∧
  a.orders = b.orders ∧ a.order_items = b.order_items ∧
  a.coupon_events = b.coupon_events

/-- Success test for a service computation. -/
def mOk {α : Type} : M α → Bool
  | .ok _ => true
  | .error _ => false

/-- Resulting store of a wallet operation (the fallback is returned on error,
mirroring the rollback to the pre-transaction state). -/
def resDB {α : Type} (r : M (DB × α)) (fallback : DB) : DB :=
  match r with
  | .ok (d, _) => d
  | .error _ => fallback

/-- Ledger rows returned by a wallet operation (empty on error). -/
def resRows (r : M (DB × List LedgerRow)) : List LedgerRow :=
  match r with
  | .ok (_, rs) => rs
  | .error _ => []

/-- Single ledger row returned by a wallet operation (dummy row on error). -/
def resRow (r : M (DB × LedgerRow)) : LedgerRow :=
  match r with
  | .ok (_, x) => x
  | .error _ => ⟨0, 0, "", 0, none, none⟩

/-- Edge row returned by a pricing upsert (dummy row on error). -/
def resEdge (r : M (DB × EdgeRow)) : EdgeRow :=
  match r with
  | .ok (_, e) => e
  | .error _ => ⟨0, 0, 0, 0, "", false, 0⟩

/-! Concrete stores used to exercise the definitions. -/

/-- Platform root of the worked scenario. -/
def scA : UserRec :=
  { id := 1, role := "admin", parent_id := none, path := [1], depth := 0,
    is_active := true }

/-- Reseller A of the worked scenario (root sells to A at 150). -/
def scR : UserRec :=
  { id := 2, role := "seller", parent_id := some 1, path := [1, 2], depth := 1,
    is_active := true }

/-- Sub-reseller B of the worked scenario (A sells to B at 200). -/
def scB : UserRec :=
  { id := 3, role := "seller", parent_id := some 2, path := [1, 2, 3], depth := 2,
    is_active := true }

/-- Store of the worked scenario: base price 100 for plan 10, edge root→A 150,
edge A→B 200, buyer B holding 1000 cents. -/
def scDb : DB :=
  { users := [scA, scR, scB],
    accounts := [(3, 1000)],
    ledger := [],
    plans := [{ id := 10, is_active := true }],
    base_prices := [{ plan_id := 10, base_price_cents := 100, currency := "USD" }],
    edges := [
      { parent_user_id := 1, child_user_id := 2, plan_id := 10,
        price_cents := 150, currency := "USD", is_admin_override := false,
        updated_by_user_id := 1 },
      { parent_user_id := 2, child_user_id := 3, plan_id := 10,
        price_cents := 200, currency := "USD", is_admin_override := false,
        updated_by_user_id := 2 }],
    coupons := [], orders := [], order_items := [], coupon_events := [] }

/-- Deterministic coupon-code candidate generator for the scenario. -/
def scCand (i a : Nat) : String := "C-" ++ toString i ++ "-" ++ toString a

/-- Candidate generator all of whose candidates for every position collide with
the single pre-existing coupon code. -/
def collideCand (_i _a : Nat) : String := "TAKEN"

/-- Store with one pre-existing coupon, used to exhaust the collision retry. -/
def scDbTaken : DB :=
  { scDb with coupons :=
      [{ coupon_code := "TAKEN", plan_id := 10, status := "unused",
         owner_user_id := 3 }] }

/-- Target of the admin hard-delete example: direct child of the root with a
positive balance and a grandchild below it. -/
def delTgt : UserRec :=
  { id := 2, role := "seller", parent_id := some 1, path := [1, 2], depth := 1,
    is_active := true }

/-- Grandchild below `delTgt`. -/
def delGrand : UserRec :=
  { id := 3, role := "seller", parent_id := some 2, path := [1, 2, 3], depth := 2,
    is_active := true }

/-- Store for the delete-user examples: root 1, child 2 (balance 50),
grandchild 3 (balance 70). -/
def delDb : DB :=
  { users := [scA, delTgt, delGrand],
    accounts := [(1, 0), (2, 50), (3, 70)],
    ledger := [], plans := [], base_prices := [], edges := [],
    coupons := [], orders := [], order_items := [], coupon_events := [] }

/-- Seller owner for the seller-scoped delete example. -/
def sellerOwner : UserRec :=
  { id := 2, role := "seller", parent_id := some 1, path := [1, 2], depth := 1,
    is_active := true }

/-- Direct child of `sellerOwner`, to be deactivated with its subtree. -/
def sellerTgt : UserRec :=
  { id := 3, role := "seller", parent_id := some 2, path := [1, 2, 3], depth := 2,
    is_active := true }

/-- Grandchild inside the deactivated subtree. -/
def sellerGrand : UserRec :=
  { id := 4, role := "seller", parent_id := some 3, path := [1, 2, 3, 4],
    depth := 3, is_active := true }

/-- Store for the seller subtree-deactivation example. -/
def sellerDelDb : DB :=
  { users := [scA, sellerOwner, sellerTgt, sellerGrand],
    accounts := [(2, 5), (3, 30), (4, 80)],
    ledger := [], plans := [], base_prices := [], edges := [],
    coupons := [], orders := [], order_items := [], coupon_events := [] }

/-- Store for the set-balance examples: root 1 (balance 1000), child 2
(balance 0). -/
def sbDb : DB :=
  { users := [scA, delTgt],
    accounts := [(1, 1000), (2, 0)],
    ledger := [], plans := [], base_prices := [], edges := [],
    coupons := [], orders := [], order_items := [], coupon_events := [] }

/-- Store for the seller set-balance examples: seller 2 (balance 500) above
child 3 (balance 40). -/
def sbSellerDb : DB :=
  { users := [scA, sellerOwner, sellerTgt],
    accounts := [(2, 500), (3, 40)],
    ledger := [], plans := [], base_prices := [], edges := [],
    coupons := [], orders := [], order_items := [], coupon_events := [] }

/-! Infrastructure lemmas about the monad, balances and locking. -/

theorem ok_bind {α β : Type} (a : α) (f : α → M β) : (Except.ok a >>= f) = f a := rfl

theorem error_bind {α β : Type} (e : Err) (f : α → M β) :
    ((Except.error e : M α) >>= f) = .error e := rfl

theorem bind_ok_iff {α β : Type} (x : M α) (f : α → M β) (b : β) :
    (x >>= f) = .ok b ↔ ∃ a, x = .ok a ∧ f a = .ok b := by
  cases x <;> simp [ok_bind, error_bind]

theorem getBal_append (l₁ l₂ : List (Nat × Int)) (v : Nat) :
    getBal (l₁ ++ l₂) v =
      match getBal l₁ v with
      | some b => some b
      | none => getBal l₂ v := by
  induction l₁ with
  | nil => simp [getBal]
  | cons p rest ih =>
    by_cases h : p.1 = v
    · simp [getBal, h]
    · simp [getBal, h, ih]

theorem getBal_setBal (l : List (Nat × Int)) (u : Nat) (v : Int) (w : Nat) :
    getBal (setBal l u v) w =
      if w = u then (getBal l u).map (fun _ => v) else getBal l w := by
  induction l with
  | nil => simp [getBal, setBal]
  | cons p rest ih =>
    by_cases hp : p.1 = u
    · by_cases hw : w = u
      · subst hw
        simp [getBal, setBal, hp]
      · have hw1 : ¬ u = w := fun hc => hw hc.symm
        have hw2 : ¬ p.1 = w := hp ▸ hw1
        simp [getBal, setBal, hp, hw, hw1, hw2, ih]
    · by_cases hw : p.1 = w
      · by_cases hwu : w = u
        · exact absurd (hw.trans hwu) hp
        · simp [getBal, setBal, hp, hw, hwu]
      · simp [getBal, setBal, hp, hw, ih]

theorem ensure_ok_shape {db db' : DB} {uid : Nat}
    (h : ensure_wallet_account db uid = .ok db') :
    db' = { db with accounts := db'.accounts } ∧
    (∀ v, getBal db'.accounts v =
      if v = uid then some ((getBal db.accounts uid).getD 0)
      else getBal db.accounts v) := by
  unfold ensure_wallet_account at h
  by_cases h1 : (findUser db uid).isNone
  · simp [h1] at h
  · by_cases h2 : (getBal db.accounts uid).isSome
    · simp [h1, h2] at h
      subst h
      refine ⟨rfl, fun v => ?_⟩
      by_cases hv : v = uid
      · subst hv
        obtain ⟨b, hb⟩ := Option.isSome_iff_exists.mp h2
        simp [hb]
      · simp [hv]
    · simp [h1, h2] at h
      subst h
      refine ⟨rfl, fun v => ?_⟩
      by_cases hv : v = uid
      · subst hv
        have hn : getBal db.accounts v = none := Option.not_isSome_iff_eq_none.mp h2
        simp [getBal_append, hn, getBal]
      · have hv' : ¬ uid = v := fun hc => hv hc.symm
        rw [getBal_append]
        cases getBal db.accounts v <;> simp [getBal, hv, hv']

theorem ensure_ok_of_user {db : DB} {uid : Nat} (h : (findUser db uid).isSome) :
    ∃ db', ensure_wallet_account db uid = .ok db' := by
  unfold ensure_wallet_account
  obtain ⟨u, hu⟩ := Option.isSome_iff_exists.mp h
  by_cases h2 : (getBal db.accounts uid).isSome
  · exact ⟨db, by simp [hu, h2]⟩
  · exact ⟨{ db with accounts := db.accounts ++ [(uid, 0)] }, by simp [hu, h2]⟩

theorem fold_ensure_ok_shape :
    ∀ (ids : List Nat) (db db' : DB),
    ids.foldlM (fun d uid => ensure_wallet_account d uid) db = .ok db' →
    db' = { db with accounts := db'.accounts } ∧
    (∀ v, getBal db'.accounts v =
      if v ∈ ids then some ((getBal db.accounts v).getD 0)
      else getBal db.accounts v) := by
  intro ids
  induction ids with
  | nil =>
    intro db db' h
    simp [List.foldlM_nil, pure, Except.pure] at h
    subst h
    exact ⟨rfl, fun v => by simp⟩
  | cons uid rest ih =>
    intro db db' h
    rw [List.foldlM_cons, bind_ok_iff] at h
    obtain ⟨d1, h1, h2⟩ := h
    obtain ⟨hshape1, hbal1⟩ := ensure_ok_shape h1
    obtain ⟨hshape2, hbal2⟩ := ih d1 db' h2
    constructor
    · rw [hshape2, hshape1]
    · intro v
      rw [hbal2 v]
      by_cases hv : v ∈ rest
      · simp only [hv, if_pos]
        rw [hbal1 v]
        by_cases hvu : v = uid
        · subst hvu
          simp [List.mem_cons]
        · simp [hvu, hv, List.mem_cons]
      · simp only [hv, if_neg, if_false]
        rw [hbal1 v]
        by_cases hvu : v = uid
        · subst hvu
          simp [List.mem_cons]
        · simp [hvu, hv, List.mem_cons]

theorem fold_ensure_ok_of_users :
    ∀ (ids : List Nat) (db : DB),
    (∀ uid ∈ ids, (findUser db uid).isSome) →
    ∃ db', ids.foldlM (fun d uid => ensure_wallet_account d uid) db = .ok db' := by
  intro ids
  induction ids with
  | nil => exact fun db _ => ⟨db, by simp [List.foldlM_nil, pure, Except.pure]⟩
  | cons uid rest ih =>
    intro db h
    obtain ⟨d1, h1⟩ := ensure_ok_of_user (h uid (by simp))
    have husers : d1.users = db.users := by
      rw [(ensure_ok_shape h1).1]
    obtain ⟨db', h2⟩ := ih d1 (fun v hv => by
      rw [findUser, husers]
      exact h v (by simp [hv]))
    exact ⟨db', by rw [List.foldlM_cons, bind_ok_iff]; exact ⟨d1, h1, h2⟩⟩

theorem mem_canonicalIds (v : Nat) (ids : List Nat) :
    v ∈ canonicalIds ids ↔ v ∈ ids := by
  unfold canonicalIds
  rw [(List.perm_insertionSort _ _).mem_iff]
  exact List.mem_dedup

theorem lock_ok_shape {db db' : DB} {ids l : List Nat}
    (h : lock_accounts db ids = .ok (db', l)) :
    l = canonicalIds ids ∧
    db' = { db with accounts := db'.accounts } ∧
    (∀ v, getBal db'.accounts v =
      if v ∈ ids then some ((getBal db.accounts v).getD 0)
      else getBal db.accounts v) := by
  unfold lock_accounts at h
  rw [bind_ok_iff] at h
  obtain ⟨d1, h1, h2⟩ := h
  obtain ⟨hshape, hbal⟩ := fold_ensure_ok_shape _ _ _ h1
  by_cases hc : (canonicalIds ids).all (fun uid => (getBal d1.accounts uid).isSome)
  · simp [hc] at h2
    obtain ⟨hdb, hl⟩ := h2
    subst hdb
    refine ⟨hl.symm, hshape, fun v => ?_⟩
    rw [hbal v]
    by_cases hv : v ∈ ids <;> simp [hv, mem_canonicalIds]
  · simp [hc] at h2

theorem lock_ok_of_users {db : DB} {ids : List Nat}
    (h : ∀ uid ∈ ids, (findUser db uid).isSome) :
    ∃ db', lock_accounts db ids = .ok (db', canonicalIds ids) := by
  obtain ⟨db', hfold⟩ := fold_ensure_ok_of_users (canonicalIds ids) db
    (fun uid hu => h uid ((mem_canonicalIds uid ids).mp hu))
  have hbal := (fold_ensure_ok_shape _ _ _ hfold).2
  have hall : (canonicalIds ids).all (fun uid => (getBal db'.accounts uid).isSome) := by
    rw [List.all_eq_true]
    intro uid hu
    rw [hbal uid, if_pos hu]
    rfl
  exact ⟨db', by unfold lock_accounts; rw [bind_ok_iff]; exact ⟨db', hfold, by simp [hall]⟩⟩

theorem foldl_addLedger_shape (rows : List LedgerRow) (d : DB) :
    rows.foldl addLedger d = { d with ledger := d.ledger ++ rows } := by
  induction rows generalizing d with
  | nil => simp
  | cons r rest ih =>
    rw [List.foldl_cons, ih]
    simp [addLedger]

theorem transferPair_balanced (tx a b : Nat) (d : Int) :
    BalancedGroup tx (transferPair tx a b d) := by
  refine ⟨by simp [rowsSum, transferPair], fun r hr => ?_⟩
  simp only [transferPair, List.mem_cons, List.mem_singleton] at hr
  rcases hr with h | h | h
  · subst h; exact ⟨rfl, by simp⟩
  · subst h; exact ⟨rfl, by simp⟩
  · cases h

theorem transfer_ok_shape {db db' : DB} {f t : Nat} {amount : Int} {tx : Nat}
    {rows : List LedgerRow}
    (h : transfer_between_users db f t amount tx = .ok (db', rows)) :
    db'.ledger = db.ledger ++ rows ∧ rows = transferPair tx f t amount := by
  unfold transfer_between_users at h
  split at h
  · exact Except.noConfusion h
  split at h
  · exact Except.noConfusion h
  rw [bind_ok_iff] at h
  obtain ⟨⟨d1, l⟩, hlock, h⟩ := h
  have hledger : d1.ledger = db.ledger := by rw [(lock_ok_shape hlock).2.1]
  dsimp only at h
  split at h <;> try exact Except.noConfusion h
  split at h
  · exact Except.noConfusion h
  injection h with h1
  injection h1 with hdb hrows
  subst hdb
  subst hrows
  exact ⟨by simp [addLedger, updBal, hledger, transferPair], rfl⟩

theorem topup_ok_shape {db db' : DB} {admin : UserRec} {target : Nat}
    {amount : Int} {tx : Nat} {row : LedgerRow}
    (h : admin_topup db admin target amount tx = .ok (db', row)) :
    admin.role = "admin" ∧ row.entry_kind = "topup" ∧ row.tx_id = tx ∧
    db'.ledger = db.ledger ++ [row] := by
  unfold admin_topup at h
  split at h
  next hrole => exact Except.noConfusion h
  next hrole =>
    split at h
    · exact Except.noConfusion h
    rw [bind_ok_iff] at h
    obtain ⟨⟨d1, l⟩, hlock, h⟩ := h
    have hledger : d1.ledger = db.ledger := by rw [(lock_ok_shape hlock).2.1]
    dsimp only at h
    split at h <;> try exact Except.noConfusion h
    injection h with h1
    injection h1 with hdb hrow
    subst hdb
    subst hrow
    refine ⟨by simpa using hrole, rfl, rfl, ?_⟩
    simp [addLedger, updBal, hledger]

theorem adminSet_ok_shape {db db' : DB} {admin : UserRec} {target : Nat}
    {desired : Int} {tx : Nat} {rows : List LedgerRow}
    (h : admin_set_balance_via_parent db admin target desired tx = .ok (db', rows)) :
    db'.ledger = db.ledger ++ rows ∧
    ∃ a b d, rows = transferPair tx a b d := by
  unfold admin_set_balance_via_parent at h
  split at h
  · exact Except.noConfusion h
  split at h
  · exact Except.noConfusion h
  split at h <;> try exact Except.noConfusion h
  split at h <;> try exact Except.noConfusion h
  rw [bind_ok_iff] at h
  obtain ⟨⟨d1, l⟩, hlock, h⟩ := h
  have hledger : d1.ledger = db.ledger := by rw [(lock_ok_shape hlock).2.1]
  dsimp only at h
  split at h <;> try exact Except.noConfusion h
  split at h
  · exact Except.noConfusion h
  split at h
  · split at h
    · exact Except.noConfusion h
    · injection h with h1
      injection h1 with hdb hrows
      subst hdb
      subst hrows
      refine ⟨?_, _, _, _, rfl⟩
      rw [foldl_addLedger_shape]
      simp [updBal, hledger]
  · injection h with h1
    injection h1 with hdb hrows
    subst hdb
    subst hrows
    refine ⟨?_, _, _, _, rfl⟩
    rw [foldl_addLedger_shape]
    simp [updBal, hledger]

theorem sellerSet_ok_shape {db db' : DB} {seller : UserRec} {target : Nat}
    {desired : Int} {tx : Nat} {rows : List LedgerRow}
    (h : seller_set_balance_via_parent db seller target desired tx = .ok (db', rows)) :
    db'.ledger = db.ledger ++ rows ∧
    ∃ a b d, rows = transferPair tx a b d := by
  unfold seller_set_balance_via_parent at h
  split at h
  · exact Except.noConfusion h
  split at h
  · exact Except.noConfusion h
  split at h <;> try exact Except.noConfusion h
  split at h
  · exact Except.noConfusion h
  rw [bind_ok_iff] at h
  obtain ⟨⟨d1, l⟩, hlock, h⟩ := h
  have hledger : d1.ledger = db.ledger := by rw [(lock_ok_shape hlock).2.1]
  dsimp only at h
  split at h <;> try exact Except.noConfusion h
  split at h
  · exact Except.noConfusion h
  split at h
  · split at h
    · exact Except.noConfusion h
    · injection h with h1
      injection h1 with hdb hrows
      subst hdb
      subst hrows
      refine ⟨?_, _, _, _, rfl⟩
      rw [foldl_addLedger_shape]
      simp [updBal, hledger]
  · injection h with h1
    injection h1 with hdb hrows
    subst hdb
    subst hrows
    refine ⟨?_, _, _, _, rfl⟩
    rw [foldl_addLedger_shape]
    simp [updBal, hledger]

theorem adminDel_ok_shape {db db' : DB} {admin : UserRec} {target : Nat}
    {tx : Nat} {rows : List LedgerRow}
    (h : admin_delete_user_return_balance_to_parent db admin target tx
      = .ok (db', rows)) :
    db'.ledger = db.ledger ++ rows ∧
    (rows = [] ∨ ∃ a b d, rows = transferPair tx a b d) := by
  unfold admin_delete_user_return_balance_to_parent at h
  split at h
  · exact Except.noConfusion h
  split at h <;> try exact Except.noConfusion h
  split at h <;> try exact Except.noConfusion h
  rw [bind_ok_iff] at h
  obtain ⟨⟨d1, l⟩, hlock, h⟩ := h
  have hledger : d1.ledger = db.ledger := by rw [(lock_ok_shape hlock).2.1]
  dsimp only at h
  split at h <;> try exact Except.noConfusion h
  next child_balance parent_bal hc hp =>
    injection h with h1
    injection h1 with hdb hrows
    subst hdb
    subst hrows
    by_cases hpos : child_balance > 0
    · constructor
      · simp only [hpos, if_true, if_pos]
        rw [foldl_addLedger_shape]
        simp [updBal, hledger]
      · exact Or.inr ⟨_, _, _, by rw [if_pos hpos]⟩
    · constructor
      · simp [hpos, hledger]
      · exact Or.inl (by rw [if_neg hpos])

theorem rowsSum_append (a b : List LedgerRow) :
    rowsSum (a ++ b) = rowsSum a + rowsSum b := by
  simp [rowsSum]

theorem balancedGroup_append {tx : Nat} {a b : List LedgerRow}
    (ha : BalancedGroup tx a) (hb : BalancedGroup tx b) :
    BalancedGroup tx (a ++ b) := by
  refine ⟨by rw [rowsSum_append, ha.1, hb.1]; simp, fun r hr => ?_⟩
  rcases List.mem_append.mp hr with h | h
  · exact ha.2 r h
  · exact hb.2 r h

theorem balancedGroup_nil (tx : Nat) : BalancedGroup tx [] :=
  ⟨by simp [rowsSum], fun r hr => absurd hr (List.not_mem_nil r)⟩

theorem rollupStep_shape (owner tx : Nat) (db : DB) (rows0 : List LedgerRow)
    (uid : Nat) :
    rollupStep owner tx (db, rows0) uid = (db, rows0) ∨
    ∃ bal ob, uid ≠ owner ∧ getBal db.accounts uid = some bal ∧
      getBal db.accounts owner = some ob ∧ 0 < bal ∧
      rollupStep owner tx (db, rows0) uid =
        ((transferPair tx uid owner bal).foldl addLedger
           (updBal (updBal db owner (ob + bal)) uid 0),
         rows0 ++ transferPair tx uid owner bal) := by
  unfold rollupStep
  by_cases ho : uid = owner
  · exact Or.inl (by simp [ho])
  · cases hu : getBal db.accounts uid with
    | none => exact Or.inl (by simp [ho, hu])
    | some bal =>
      cases hw : getBal db.accounts owner with
      | none => exact Or.inl (by simp [ho, hu, hw])
      | some ob =>
        by_cases hb : bal ≤ 0
        · exact Or.inl (by simp [ho, hu, hw, hb])
        · refine Or.inr ⟨bal, ob, ho, rfl, rfl, by omega, ?_⟩
          simp [ho, hu, hw, hb]

theorem rollup_foldl_shape (owner tx : Nat) :
    ∀ (l : List Nat) (db : DB) (rows0 : List LedgerRow),
    ∃ newRows,
      (l.foldl (rollupStep owner tx) (db, rows0)).2 = rows0 ++ newRows ∧
      (l.foldl (rollupStep owner tx) (db, rows0)).1 =
        { db with
          accounts := (l.foldl (rollupStep owner tx) (db, rows0)).1.accounts,
          ledger := db.ledger ++ newRows } ∧
      BalancedGroup tx newRows := by
  intro l
  induction l with
  | nil =>
    intro db rows0
    exact ⟨[], by simp, by simp, balancedGroup_nil tx⟩
  | cons u rest ih =>
    intro db rows0
    rcases rollupStep_shape owner tx db rows0 u with hstep | ⟨bal, ob, hne, hu, hw, hpos, hstep⟩
    · rw [List.foldl_cons, hstep]
      exact ih db rows0
    · rw [List.foldl_cons, hstep]
      obtain ⟨newRows2, h2, h1, hbal2⟩ :=
        ih ((transferPair tx u owner bal).foldl addLedger
            (updBal (updBal db owner (ob + bal)) u 0))
           (rows0 ++ transferPair tx u owner bal)
      refine ⟨transferPair tx u owner bal ++ newRows2, ?_, ?_, ?_⟩
      · rw [h2, List.append_assoc]
      · rw [h1, foldl_addLedger_shape]
        simp [updBal, List.append_assoc]
      · exact balancedGroup_append (transferPair_balanced tx u owner bal) hbal2

theorem rollup_foldl_untouched (owner tx : Nat) :
    ∀ (l : List Nat) (db : DB) (rows0 : List LedgerRow) (v : Nat),
    v ∉ l → v ≠ owner →
    getBal (l.foldl (rollupStep owner tx) (db, rows0)).1.accounts v =
      getBal db.accounts v := by
  intro l
  induction l with
  | nil => intro db rows0 v _ _; simp
  | cons u rest ih =>
    intro db rows0 v hv hvo
    have hvu : v ≠ u := fun hc => hv (hc ▸ List.mem_cons_self u rest)
    have hvr : v ∉ rest := fun hc => hv (List.mem_cons_of_mem u hc)
    rcases rollupStep_shape owner tx db rows0 u with hstep | ⟨bal, ob, hne, hu, hw, hpos, hstep⟩
    · rw [List.foldl_cons, hstep]
      exact ih db rows0 v hvr hvo
    · rw [List.foldl_cons, hstep]
      rw [ih _ _ v hvr hvo]
      rw [foldl_addLedger_shape]
      simp only [updBal]
      rw [getBal_setBal, if_neg hvu, getBal_setBal, if_neg hvo]

theorem rollup_foldl_processed (owner tx : Nat) :
    ∀ (l : List Nat) (db : DB) (rows0 : List LedgerRow),
    l.Nodup → (getBal db.accounts owner).isSome →
    ∀ uid ∈ l, uid ≠ owner → ∀ b, getBal db.accounts uid = some b → 0 < b →
    getBal (l.foldl (rollupStep owner tx) (db, rows0)).1.accounts uid = some 0 ∧
    ∀ r ∈ transferPair tx uid owner b,
      r ∈ (l.foldl (rollupStep owner tx) (db, rows0)).2 := by
  intro l
  induction l with
  | nil => intro db rows0 _ _ uid hu; cases hu
  | cons u rest ih =>
    intro db rows0 hnodup howner uid humem hne b hb hpos
    have hun : u ∉ rest := (List.nodup_cons.mp hnodup).1
    have hrest : rest.Nodup := (List.nodup_cons.mp hnodup).2
    rcases List.mem_cons.mp humem with heq | hmem
    · subst heq
      obtain ⟨ob, hob⟩ := Option.isSome_iff_exists.mp howner
      have hstep : rollupStep owner tx (db, rows0) uid =
          ((transferPair tx uid owner b).foldl addLedger
             (updBal (updBal db owner (ob + b)) uid 0),
           rows0 ++ transferPair tx uid owner b) := by
        unfold rollupStep
        simp [hne, hb, hob, not_le.mpr hpos]
      rw [List.foldl_cons, hstep]
      constructor
      · rw [rollup_foldl_untouched owner tx rest _ _ uid hun hne]
        rw [foldl_addLedger_shape]
        simp only [updBal]
        rw [getBal_setBal, if_pos rfl, getBal_setBal, if_neg hne, hb]
        rfl
      · intro r hr
        obtain ⟨newRows2, h2, _, _⟩ := rollup_foldl_shape owner tx rest _ _
        rw [h2]
        exact List.mem_append_left _ (List.mem_append_right _ hr)
    · rcases rollupStep_shape owner tx db rows0 u with hstep | ⟨bal, ob, hne2, hu2, hw2, hpos2, hstep⟩
      · rw [List.foldl_cons, hstep]
        exact ih db rows0 hrest howner uid hmem hne b hb hpos
      · rw [List.foldl_cons, hstep]
        have huu : uid ≠ u := fun hc => hun (hc ▸ hmem)
        have hb2 : getBal ((transferPair tx u owner bal).foldl addLedger
            (updBal (updBal db owner (ob + bal)) u 0)).accounts uid = some b := by
          rw [foldl_addLedger_shape]
          simp only [updBal]
          rw [getBal_setBal, if_neg huu, getBal_setBal, if_neg hne, hb]
        have howner2 : (getBal ((transferPair tx u owner bal).foldl addLedger
            (updBal (updBal db owner (ob + bal)) u 0)).accounts owner).isSome := by
          rw [foldl_addLedger_shape]
          simp only [updBal]
          rw [getBal_setBal, if_neg (fun hc => hne2 hc.symm), getBal_setBal,
            if_pos rfl, hw2]
          rfl
        exact ih _ _ hrest howner2 uid hmem hne b hb2 hpos

theorem sellerDel_ok_shape {db db' : DB} {seller : UserRec} {target tx : Nat}
    {rows : List LedgerRow}
    (h : seller_delete_user_return_balance_to_parent db seller target tx
      = .ok (db', rows)) :
    ∃ tu d1,
      seller.role = "seller" ∧
      findUser db target = some tu ∧ tu.parent_id = some seller.id ∧
      lock_accounts db (seller.id ::
          (if tu.id ∈ subtreeIds db tu then subtreeIds db tu
           else subtreeIds db tu ++ [tu.id])) =
        .ok (d1, canonicalIds (seller.id ::
          (if tu.id ∈ subtreeIds db tu then subtreeIds db tu
           else subtreeIds db tu ++ [tu.id]))) ∧
      db' = { ((if tu.id ∈ subtreeIds db tu then subtreeIds db tu
                else subtreeIds db tu ++ [tu.id]).foldl
                 (rollupStep seller.id tx) (d1, [])).1 with
              users := ((if tu.id ∈ subtreeIds db tu then subtreeIds db tu
                         else subtreeIds db tu ++ [tu.id]).foldl
                          (rollupStep seller.id tx) (d1, [])).1.users.map
                (deactivateIn (if tu.id ∈ subtreeIds db tu then subtreeIds db tu
                               else subtreeIds db tu ++ [tu.id])) } ∧
      rows = ((if tu.id ∈ subtreeIds db tu then subtreeIds db tu
               else subtreeIds db tu ++ [tu.id]).foldl
                (rollupStep seller.id tx) (d1, [])).2 := by
  unfold seller_delete_user_return_balance_to_parent at h
  split at h
  next hrole => exact Except.noConfusion h
  next hrole =>
    split at h
    · exact Except.noConfusion h
    next tu hfind =>
      split at h
      next hpar => exact Except.noConfusion h
      next hpar =>
        rw [bind_ok_iff] at h
        obtain ⟨⟨d1, l⟩, hlock, h⟩ := h
        have hl := (lock_ok_shape hlock).1
        subst hl
        dsimp only at h
        injection h with h1
        injection h1 with hdb hrows
        subst hdb
        subst hrows
        refine ⟨tu, d1, by simpa using hrole, hfind, ?_, hlock, rfl, rfl⟩
        cases hp : tu.parent_id with
        | none => rw [hp] at hpar; simp at hpar
        | some p =>
          rw [hp] at hpar
          by_cases hps : p = seller.id
          · rw [hps]
          · exfalso
            exact hpar (by simp [hps])

/-! Claim theorems. -/

/-- C2: with platform base price 100 for plan 10, edge root→A = 150, edge
A→B = 200 and buyer B holding 1000, purchasing quantity 2 yields one
`purchase_debit` of −400 on B, a `profit_credit` of 100 for A, an
`admin_base_credit` of 200 plus a `profit_credit` of 100 for the root
(300 in total), and the credits sum to the 400 debit. -/
theorem C2_worked_distribution_scenario :
    (purchase_plan_and_distribute scDb scB 10 2 77 scCand).1 =
      .ok { tx_id := 77, plan_id := 10, buyer_user_id := 3,
            purchase_price_cents := 200,
            credits_by_user := [(2, 50), (1, 150)], order_id := 0,
            quantity := 2, total_paid_cents := 400,
            coupon_codes := ["C-0-0", "C-1-0"] } ∧
    (purchase_plan_and_distribute scDb scB 10 2 77 scCand).2.ledger =
      [{ tx_id := 77, user_id := 3, entry_kind := "purchase_debit",
         amount_cents := -400, related_user_id := some 2, plan_id := some 10 },
       { tx_id := 77, user_id := 2, entry_kind := "profit_credit",
         amount_cents := 100, related_user_id := some 3, plan_id := some 10 },
       { tx_id := 77, user_id := 1, entry_kind := "admin_base_credit",
         amount_cents := 200, related_user_id := some 3, plan_id := some 10 },
       { tx_id := 77, user_id := 1, entry_kind := "profit_credit",
         amount_cents := 100, related_user_id := some 3, plan_id := some 10 }] ∧
    rowsSum ((purchase_plan_and_distribute scDb scB 10 2 77 scCand).2.ledger.drop 1)
      = 400 := by
  decide

/-- C7: `_lock_accounts` always locks in the single canonical order — ascending
user id, duplicates removed — regardless of call-site ordering; every requested
account exists (is created) in the resulting store before the locks are taken. -/
theorem C7_lock_accounts_canonical_order (db : DB) (ids ids' : List Nat)
    (db' : DB) (order : List Nat) :
    (lock_accounts db ids = .ok (db', order) →
      order = canonicalIds ids ∧ List.Sorted (· ≤ ·) order ∧ order.Nodup ∧
      (∀ x, x ∈ order ↔ x ∈ ids) ∧
      (∀ uid ∈ order, (getBal db'.accounts uid).isSome)) ∧
    ((∀ x, x ∈ ids ↔ x ∈ ids') →
      lock_accounts db ids = lock_accounts db ids') := by
  constructor
  · intro h
    obtain ⟨horder, hshape, hbal⟩ := lock_ok_shape h
    subst horder
    refine ⟨rfl, ?_, ?_, fun x => mem_canonicalIds x ids, fun uid hu => ?_⟩
    · exact List.sorted_insertionSort _ _
    · exact ((List.perm_insertionSort _ _).nodup_iff).mpr (List.nodup_dedup ids)
    · rw [hbal uid, if_pos ((mem_canonicalIds uid ids).mp hu)]
      rfl
  · intro hmem
    have hdedup : List.Perm ids.dedup ids'.dedup := by
      rw [List.perm_ext_iff_of_nodup (List.nodup_dedup ids) (List.nodup_dedup ids')]
      intro a
      rw [List.mem_dedup, List.mem_dedup]
      exact hmem a
    have hcan : canonicalIds ids = canonicalIds ids' := by
      unfold canonicalIds
      refine List.eq_of_perm_of_sorted ?_ (List.sorted_insertionSort _ _)
        (List.sorted_insertionSort _ _)
      exact (List.perm_insertionSort _ _).trans
        (hdedup.trans (List.perm_insertionSort _ _).symm)
    unfold lock_accounts
    rw [hcan]

/-- C7 witness: locking `[3, 1, 2, 3]` acquires locks in the canonical order
`[1, 2, 3]`, with every account present in the locked store. -/
theorem C7_lock_accounts_canonical_order_witness :
    (lock_accounts scDb [3, 1, 2, 3] =
      .ok (resDB (lock_accounts scDb [3, 1, 2, 3]) scDb, [1, 2, 3])) ∧
    ([1, 2, 3] = canonicalIds [3, 1, 2, 3] ∧
      List.Sorted (· ≤ ·) [1, 2, 3] ∧ ([1, 2, 3] : List Nat).Nodup ∧
      (∀ x, x ∈ [1, 2, 3] ↔ x ∈ [3, 1, 2, 3]) ∧
      (∀ uid ∈ [1, 2, 3],
        (getBal (resDB (lock_accounts scDb [3, 1, 2, 3]) scDb).accounts uid).isSome)) :=
  ⟨by decide,
   (C7_lock_accounts_canonical_order scDb [3, 1, 2, 3] []
      (resDB (lock_accounts scDb [3, 1, 2, 3]) scDb) [1, 2, 3]).1 (by decide)⟩

/-- C9: `get_balance` never fails for an existing user (creating the account on
first read if needed), and an immediate second call returns the identical store
and balance. -/
theorem C9_get_balance_idempotent (db : DB) (uid : Nat)
    (h : (findUser db uid).isSome) :
    mOk (get_balance db uid) = true ∧
    ∀ db1 b1, get_balance db uid = .ok (db1, b1) →
      get_balance db1 uid = .ok (db1, b1) := by
  constructor
  · obtain ⟨d1, h1⟩ := ensure_ok_of_user h
    have hbal := (ensure_ok_shape h1).2 uid
    rw [if_pos rfl] at hbal
    unfold get_balance
    rw [h1, ok_bind, hbal]
    rfl
  · intro db1 b1 hcall
    unfold get_balance at hcall
    rw [bind_ok_iff] at hcall
    obtain ⟨d1, h1, h2⟩ := hcall
    cases hb : getBal d1.accounts uid with
    | none => rw [hb] at h2; cases h2
    | some b =>
      rw [hb] at h2
      have hd : d1 = db1 ∧ b = b1 := by
        constructor <;> [skip; skip] <;> injection h2 with h3 <;>
          [exact congrArg Prod.fst h3; exact congrArg Prod.snd h3]
      obtain ⟨hd1, hb1⟩ := hd
      subst hd1
      subst hb1
      have husers : d1.users = db.users := by rw [(ensure_ok_shape h1).1]
      have hens : ensure_wallet_account d1 uid = .ok d1 := by
        unfold ensure_wallet_account
        rw [show findUser d1 uid = findUser db uid by unfold findUser; rw [husers]]
        obtain ⟨u, hu⟩ := Option.isSome_iff_exists.mp h
        simp [hu, hb]
      unfold get_balance
      rw [hens, ok_bind, hb]

/-- C9 witness: reading user 1's balance twice on the scenario store — the
first read creates the zero-balance account, the second returns the same
store and value. -/
theorem C9_get_balance_idempotent_witness :
    (findUser scDb 1).isSome = true ∧
    get_balance scDb 1 = .ok (resDB (get_balance scDb 1) scDb, 0) ∧
    get_balance (resDB (get_balance scDb 1) scDb) 1 =
      .ok (resDB (get_balance scDb 1) scDb, 0) :=
  ⟨by decide, by decide,
   (C9_get_balance_idempotent scDb 1 (by decide)).2
     (resDB (get_balance scDb 1) scDb) 0 (by decide)⟩

/-- C10: a set-balance-via-parent call whose desired balance equals the
target's current balance raises `WalletError` — it is rejected, not a no-op —
in both the admin and the seller variant. -/
theorem C10_zero_delta_rejected (db : DB) (admin seller tu : UserRec)
    (target pid : Nat) (b : Int) (tx : Nat) :
    (admin.role = "admin" → findUser db target = some tu →
      tu.parent_id = some pid → (findUser db pid).isSome →
      getBal db.accounts target = some b → 0 ≤ b →
      admin_set_balance_via_parent db admin target b tx =
        .error (.walletError "Target balance equals current balance.")) ∧
    (seller.role = "seller" → findUser db target = some tu →
      tu.parent_id = some seller.id → (findUser db seller.id).isSome →
      getBal db.accounts target = some b → 0 ≤ b →
      seller_set_balance_via_parent db seller target b tx =
        .error (.walletError "Target balance equals current balance.")) := by
  constructor
  · intro hrole hfind hpar hpu hbal hpos
    obtain ⟨d1, hlock⟩ := @lock_ok_of_users db [target, pid]
      (by intro v hv
          rcases List.mem_pair.mp hv with h | h <;> subst h
          · simp [hfind]
          · exact hpu)
    have hbal1 := (lock_ok_shape hlock).2.2 target
    rw [if_pos (by simp), hbal, Option.getD_some] at hbal1
    have hbal2 := (lock_ok_shape hlock).2.2 pid
    rw [if_pos (by simp)] at hbal2
    unfold admin_set_balance_via_parent
    rw [if_neg (by simp [hrole]), if_neg (by omega), hfind]
    simp only
    rw [hpar]
    simp only
    rw [hlock, ok_bind]
    simp only
    rw [hbal1, hbal2]
    simp
  · intro hrole hfind hpar hpu hbal hpos
    obtain ⟨d1, hlock⟩ := @lock_ok_of_users db [target, seller.id]
      (by intro v hv
          rcases List.mem_pair.mp hv with h | h <;> subst h
          · simp [hfind]
          · exact hpu)
    have hbal1 := (lock_ok_shape hlock).2.2 target
    rw [if_pos (by simp), hbal, Option.getD_some] at hbal1
    have hbal2 := (lock_ok_shape hlock).2.2 seller.id
    rw [if_pos (by simp)] at hbal2
    unfold seller_set_balance_via_parent
    rw [if_neg (by simp [hrole]), if_neg (by omega), hfind]
    simp only
    rw [if_neg (by simp [hpar])]
    rw [hlock, ok_bind]
    simp only
    rw [hbal1, hbal2]
    simp

/-- C10 witness: setting user 2's balance to its current 0 via the admin
variant, and user 3's balance to its current 40 via the seller variant, are
both rejected with the zero-delta `WalletError`. -/
theorem C10_zero_delta_rejected_witness :
    (scA.role = "admin" ∧ findUser sbDb 2 = some delTgt ∧
      delTgt.parent_id = some 1 ∧ (findUser sbDb 1).isSome = true ∧
      getBal sbDb.accounts 2 = some 0 ∧
      sellerOwner.role = "seller" ∧ findUser sbSellerDb 3 = some sellerTgt ∧
      sellerTgt.parent_id = some sellerOwner.id ∧
      (findUser sbSellerDb sellerOwner.id).isSome = true ∧
      getBal sbSellerDb.accounts 3 = some 40) ∧
    admin_set_balance_via_parent sbDb scA 2 0 9 =
      .error (.walletError "Target balance equals current balance.") ∧
    seller_set_balance_via_parent sbSellerDb sellerOwner 3 40 9 =
      .error (.walletError "Target balance equals current balance.") :=
  ⟨by decide,
   (C10_zero_delta_rejected sbDb scA sellerOwner delTgt 2 1 0 9).1
     (by decide) (by decide) (by decide) (by decide) (by decide) (by decide),
   (C10_zero_delta_rejected sbSellerDb scA sellerOwner sellerTgt 3 2 40 9).2
     (by decide) (by decide) (by decide) (by decide) (by decide) (by decide)⟩

theorem deactivateIn_id (ids : List Nat) (u : UserRec) :
    (deactivateIn ids u).id = u.id := by
  unfold deactivateIn
  split <;> rfl

/-- C4 is refuted by the admin variant: the operation completes, the target
user row is hard-deleted from the users table (the claim says no user row is
ever hard-deleted), and a subtree member below the target stays active with
its balance untouched (the claim says the full subtree is deactivated). -/
theorem C4_counterexample_admin_hard_delete :
    mOk (admin_delete_user_return_balance_to_parent delDb scA 2 5) = true ∧
    findUser (resDB (admin_delete_user_return_balance_to_parent delDb scA 2 5) delDb) 2
      = none ∧
    (∃ u ∈ (resDB (admin_delete_user_return_balance_to_parent delDb scA 2 5) delDb).users,
      pathDescOf u.path [1, 2] ∧ u.is_active = true ∧
      getBal (resDB (admin_delete_user_return_balance_to_parent delDb scA 2 5)
        delDb).accounts u.id = some 70) := by
  decide

/-- C4 (amended to the seller variant, the deactivate-and-rollup design the
spec adopts): the subtree is the ltree-descendant query of the target's path;
every subtree member with positive balance is rolled up to the acting owner
with a `transfer_out` / `transfer_in` pair and its balance is zeroed; every
subtree member is marked inactive; no user row is deleted and the ledger is
only appended to.  The admin variant instead hard-deletes the target row. -/
theorem C4_seller_delete_deactivates_subtree (db db' : DB) (seller tu : UserRec)
    (target tx : Nat) (rows : List LedgerRow)
    (hids : (db.users.map (fun u => u.id)).Nodup)
    (hfind : findUser db target = some tu)
    (hsel : seller.id ∉ subtreeIds db tu)
    (h : seller_delete_user_return_balance_to_parent db seller target tx
      = .ok (db', rows)) :
    db'.users.map (fun u => u.id) = db.users.map (fun u => u.id) ∧
    db'.ledger = db.ledger ++ rows ∧ BalancedGroup tx rows ∧
    (∀ u ∈ db.users, pathDescOf u.path tu.path →
      { u with is_active := false } ∈ db'.users) ∧
    (∀ u ∈ db.users, pathDescOf u.path tu.path →
      ∀ b, getBal db.accounts u.id = some b → 0 < b →
      getBal db'.accounts u.id = some 0 ∧
      ∀ r ∈ transferPair tx u.id seller.id b, r ∈ rows) := by
  obtain ⟨tu2, d1, hrole, hfind2, hpar, hlock, hdb', hrows⟩ := sellerDel_ok_shape h
  rw [hfind] at hfind2
  injection hfind2 with htu
  subst htu
  set ids := (if tu.id ∈ subtreeIds db tu then subtreeIds db tu
    else subtreeIds db tu ++ [tu.id]) with hids_def
  obtain ⟨newRows, hfold2, hfold1, hbalanced⟩ :=
    rollup_foldl_shape seller.id tx ids d1 []
  have hd1users : d1.users = db.users := by rw [(lock_ok_shape hlock).2.1]
  have hd1ledger : d1.ledger = db.ledger := by rw [(lock_ok_shape hlock).2.1]
  have hlockbal := (lock_ok_shape hlock).2.2
  have hfoldusers : (ids.foldl (rollupStep seller.id tx) (d1, [])).1.users
      = db.users := by rw [hfold1]; exact hd1users
  have hfoldledger : (ids.foldl (rollupStep seller.id tx) (d1, [])).1.ledger
      = db.ledger ++ newRows := by rw [hfold1]; rw [hd1ledger]
  have hrowseq : rows = newRows := by rw [hrows, hfold2]; simp
  have hsub_mem : ∀ u ∈ db.users, pathDescOf u.path tu.path →
      u.id ∈ subtreeIds db tu := by
    intro u hu hdesc
    exact List.mem_map_of_mem _ (List.mem_filter.mpr ⟨hu, hdesc⟩)
  have hsub_ids : ∀ x ∈ subtreeIds db tu, x ∈ ids := by
    intro x hx
    rw [hids_def]
    split
    · exact hx
    · exact List.mem_append_left _ hx
  have hnodup_sub : (subtreeIds db tu).Nodup := by
    unfold subtreeIds
    have hsubl : List.Sublist
        ((db.users.filter (fun u => pathDescOf u.path tu.path)).map (fun u => u.id))
        (db.users.map (fun u => u.id)) :=
      (List.filter_sublist db.users).map (fun u => u.id)
    exact hids.sublist hsubl
  have hnodup_ids : ids.Nodup := by
    rw [hids_def]
    split
    next => exact hnodup_sub
    next hni =>
      rw [List.nodup_append]
      exact ⟨hnodup_sub, List.nodup_singleton _, by simpa using hni⟩
  have howner : (getBal d1.accounts seller.id).isSome := by
    rw [hlockbal seller.id, if_pos (List.mem_cons_self _ _)]
    rfl
  refine ⟨?_, ?_, ?_, ?_, ?_⟩
  · rw [hdb']
    simp only [List.map_map]
    rw [hfoldusers]
    exact List.map_congr_left (fun u _ => deactivateIn_id ids u)
  · rw [hdb']
    simp only
    rw [hfoldledger, hrowseq]
  · rw [hrowseq]
    exact hbalanced
  · intro u hu hdesc
    rw [hdb']
    simp only
    rw [hfoldusers]
    have : deactivateIn ids u = { u with is_active := false } := by
      unfold deactivateIn
      rw [if_pos (hsub_ids _ (hsub_mem u hu hdesc))]
    rw [← this]
    exact List.mem_map_of_mem _ hu
  · intro u hu hdesc b hb hpos
    have hmem : u.id ∈ ids := hsub_ids _ (hsub_mem u hu hdesc)
    have hneq : u.id ≠ seller.id := by
      intro hc
      exact hsel (hc ▸ hsub_mem u hu hdesc)
    have hbd1 : getBal d1.accounts u.id = some b := by
      rw [hlockbal u.id, if_pos (List.mem_cons_of_mem _ hmem), hb]
      rfl
    obtain ⟨hzero, hpair⟩ := rollup_foldl_processed seller.id tx ids d1 []
      hnodup_ids howner u.id hmem hneq b hbd1 hpos
    constructor
    · rw [hdb']
      exact hzero
    · intro r hr
      rw [hrowseq]
      have hin := hpair r hr
      rw [hfold2] at hin
      simpa using hin

/-- C4 witness: deleting direct child 3 of seller 2 deactivates subtree
`[3, 4]`, rolls balances 30 and 80 up to the seller, with a balanced
four-row ledger group. -/
theorem C4_seller_delete_deactivates_subtree_witness :
    ((sellerDelDb.users.map (fun u => u.id)).Nodup ∧
     findUser sellerDelDb 3 = some sellerTgt ∧
     sellerOwner.id ∉ subtreeIds sellerDelDb sellerTgt ∧
     seller_delete_user_return_balance_to_parent sellerDelDb sellerOwner 3 5 =
       .ok (resDB (seller_delete_user_return_balance_to_parent sellerDelDb
              sellerOwner 3 5) sellerDelDb,
            resRows (seller_delete_user_return_balance_to_parent sellerDelDb
              sellerOwner 3 5))) ∧
    ((resDB (seller_delete_user_return_balance_to_parent sellerDelDb
        sellerOwner 3 5) sellerDelDb).users.map (fun u => u.id) =
      sellerDelDb.users.map (fun u => u.id) ∧
     (resDB (seller_delete_user_return_balance_to_parent sellerDelDb
        sellerOwner 3 5) sellerDelDb).ledger =
      sellerDelDb.ledger ++
        resRows (seller_delete_user_return_balance_to_parent sellerDelDb
          sellerOwner 3 5) ∧
     BalancedGroup 5 (resRows (seller_delete_user_return_balance_to_parent
        sellerDelDb sellerOwner 3 5))) :=
  ⟨⟨by decide, by decide, by decide, by decide⟩,
   ⟨(C4_seller_delete_deactivates_subtree sellerDelDb
      (resDB (seller_delete_user_return_balance_to_parent sellerDelDb
        sellerOwner 3 5) sellerDelDb)
      sellerOwner sellerTgt 3 5
      (resRows (seller_delete_user_return_balance_to_parent sellerDelDb
        sellerOwner 3 5))
      (by decide) (by decide) (by decide) (by decide)).1,
    (C4_seller_delete_deactivates_subtree sellerDelDb
      (resDB (seller_delete_user_return_balance_to_parent sellerDelDb
        sellerOwner 3 5) sellerDelDb)
      sellerOwner sellerTgt 3 5
      (resRows (seller_delete_user_return_balance_to_parent sellerDelDb
        sellerOwner 3 5))
      (by decide) (by decide) (by decide) (by decide)).2.1,
    (C4_seller_delete_deactivates_subtree sellerDelDb
      (resDB (seller_delete_user_return_balance_to_parent sellerDelDb
        sellerOwner 3 5) sellerDelDb)
      sellerOwner sellerTgt 3 5
      (resRows (seller_delete_user_return_balance_to_parent sellerDelDb
        sellerOwner 3 5))
      (by decide) (by decide) (by decide) (by decide)).2.2.1⟩⟩

theorem findUser_id {db : DB} {uid : Nat} {u : UserRec}
    (h : findUser db uid = some u) : u.id = uid := by
  have := List.find?_some h
  simpa using this

theorem findUser_mem {db : DB} {uid : Nat} {u : UserRec}
    (h : findUser db uid = some u) : u ∈ db.users :=
  List.mem_of_find?_eq_some h

theorem getBal_none_keys {c : List (Nat × Int)} {uid : Nat}
    (h : getBal c uid = none) : ∀ p ∈ c, p.1 ≠ uid := by
  induction c with
  | nil => intro p hp; cases hp
  | cons q rest ih =>
    intro p hp
    by_cases hq : q.1 = uid
    · rw [getBal, if_pos hq] at h
      exact Option.noConfusion h
    · rw [getBal, if_neg hq] at h
      rcases List.mem_cons.mp hp with rfl | hp2
      · exact hq
      · exact ih h p hp2

theorem addCredit_forall {P : Nat × Int → Prop} {c : List (Nat × Int)}
    {uid : Nat} {v : Int}
    (hold : ∀ p ∈ c, p.1 ≠ uid → P p)
    (hupd : ∀ p ∈ c, p.1 = uid → P (p.1, p.2 + v))
    (hnew : P (uid, v)) :
    ∀ p ∈ addCredit c uid v, P p := by
  unfold addCredit
  split
  · intro p hp
    obtain ⟨q, hq, hqe⟩ := List.mem_map.mp hp
    by_cases hk : q.1 = uid
    · rw [if_pos hk] at hqe
      exact hqe ▸ hupd q hq hk
    · rw [if_neg hk] at hqe
      exact hqe ▸ hold q hq hk
  · intro p hp
    rcases List.mem_append.mp hp with hp1 | hp2
    · exact hold p hp1 (getBal_none_keys (by
        rename_i hguard
        exact Option.not_isSome_iff_eq_none.mp hguard) p hp1)
    · rw [List.mem_singleton.mp hp2]
      exact hnew

theorem addCredit_mem_of_ne {c : List (Nat × Int)} {uid : Nat} {v : Int} :
    ∀ p ∈ addCredit c uid v, p.1 ≠ uid → p ∈ c := by
  intro p hp
  exact addCredit_forall (P := fun p => p.1 ≠ uid → p ∈ c)
    (fun q hq _ _ => hq)
    (fun q hq hk h2 => absurd hk h2)
    (fun h2 => absurd rfl h2) p hp

theorem addCredit_admin_bound (db : DB) (base : Int) (pid : Nat)
    (c : List (Nat × Int))
    (hvals : ∀ p ∈ c, 0 ≤ p.2)
    (hroles : ∀ p ∈ c, p.1 ≠ pid → roleOf db p.1 ≠ some "admin") :
    ∀ p ∈ addCredit c pid base, roleOf db p.1 = some "admin" → base ≤ p.2 :=
  addCredit_forall
    (fun q hq hk hrole => absurd hrole (hroles q hq hk))
    (fun q hq _ _ => by have := hvals q hq; simp only; omega)
    (fun _ => by simp only; omega)

theorem walk_ok_admin_bound (db : DB) (plan_id : Nat) (base : Int) :
    ∀ (fuel : Nat) (child : UserRec) (credits res : List (Nat × Int)),
    distributionWalk db plan_id base fuel child credits = .ok res →
    (∀ p ∈ credits, 0 ≤ p.2 ∧ roleOf db p.1 ≠ some "admin") →
    ∀ p ∈ res, roleOf db p.1 = some "admin" → base ≤ p.2 := by
  intro fuel
  induction fuel with
  | zero => intro child credits res h _; exact Except.noConfusion h
  | succ fuel ih =>
    intro child credits res h hinv
    unfold distributionWalk at h
    split at h
    · exact Except.noConfusion h
    next parent_id hpar =>
      rw [bind_ok_iff] at h
      obtain ⟨parent, hget, h⟩ := h
      have hfind : findUser db parent_id = some parent := by
        unfold get_user at hget
        split at hget
        · exact Except.noConfusion hget
        next u heq =>
          injection hget with hp
          subst hp
          exact heq
      have hrole_eq : roleOf db parent.id = some parent.role := by
        unfold roleOf
        rw [findUser_id hfind, hfind]
        rfl
      rw [bind_ok_iff] at h
      obtain ⟨sell_price, hsell, h⟩ := h
      rw [bind_ok_iff] at h
      obtain ⟨cost, hcost, h⟩ := h
      split at h
      next hadmin =>
        dsimp only at h
        split at h
        · exact Except.noConfusion h
        next hprofit =>
          injection h with hres
          by_cases hpos : sell_price - cost > 0
          · rw [if_pos hpos] at hres
            subst hres
            refine addCredit_admin_bound db base parent.id _ ?_ ?_
            · exact addCredit_forall
                (fun q hq _ => (hinv q hq).1)
                (fun q hq _ => by have := (hinv q hq).1; simp only; omega)
                (by simp only; omega)
            · intro q hq hk
              exact (hinv q (addCredit_mem_of_ne q hq hk)).2
          · rw [if_neg hpos] at hres
            subst hres
            refine addCredit_admin_bound db base parent.id _ ?_ ?_
            · exact fun q hq => (hinv q hq).1
            · exact fun q hq _ => (hinv q hq).2
      next hadmin =>
        dsimp only at h
        split at h
        · exact Except.noConfusion h
        next hprofit =>
          by_cases hpos : sell_price - cost > 0
          · rw [if_pos hpos] at h
            refine ih parent _ res h ?_
            refine addCredit_forall
              (fun q hq _ => hinv q hq)
              (fun q hq _ => ⟨by have := (hinv q hq).1; simp only; omega,
                (hinv q hq).2⟩)
              ⟨by simp only; omega, ?_⟩
            rw [hrole_eq]
            intro hc
            injection hc with hc
            exact hadmin hc
          · rw [if_neg hpos] at h
            exact ih parent _ res h hinv

theorem pickCouponCode_some_fresh {existing : List String} {cand : Nat → String}
    {code : String} (h : pickCouponCode existing cand = some code) :
    code ∉ existing := by
  unfold pickCouponCode at h
  obtain ⟨a, _, ha⟩ := List.exists_of_findSome?_eq_some h
  by_cases hc : existing.contains (cand a)
  · rw [if_pos hc] at ha
    exact Option.noConfusion ha
  · rw [if_neg hc] at ha
    injection ha with hcode
    subst hcode
    simpa using hc

theorem pickCouponCode_none_of_all_taken {existing : List String}
    {cand : Nat → String} (h : ∀ a, cand a ∈ existing) :
    pickCouponCode existing cand = none := by
  unfold pickCouponCode
  rw [List.findSome?_eq_none_iff]
  intro a _
  rw [if_pos (by simpa using h a)]

theorem couponsLoop_ok_shape (tx plan buyer oid : Nat) (cand : Nat → Nat → String) :
    ∀ (l : List Nat) (acc : DB) (codes : List String) (res : DB × List String),
    createCouponsLoop tx plan buyer oid cand l acc codes = .ok res →
    ∃ newCodes,
      res.2 = codes ++ newCodes ∧
      newCodes.length = l.length ∧
      res.1 = { acc with
        coupons := acc.coupons ++ newCodes.map (couponOf plan buyer),
        order_items := acc.order_items ++ newCodes.map (itemOf oid),
        coupon_events := acc.coupon_events ++ newCodes.map (eventOf buyer tx) } ∧
      (∀ c ∈ newCodes, c ∉ acc.coupons.map (fun x => x.coupon_code)) ∧
      newCodes.Nodup := by
  intro l
  induction l with
  | nil =>
    intro acc codes res h
    simp only [createCouponsLoop] at h
    injection h with hres
    subst hres
    exact ⟨[], by simp, rfl, by simp, by simp, List.nodup_nil⟩
  | cons i rest ih =>
    intro acc codes res h
    simp only [createCouponsLoop] at h
    split at h
    · exact Except.noConfusion h
    next code hpick =>
      obtain ⟨newCodes2, h2, hlen, h1, hfresh, hnodup⟩ := ih _ _ _ h
      have hcodefresh : code ∉ acc.coupons.map (fun x => x.coupon_code) :=
        pickCouponCode_some_fresh hpick
      refine ⟨code :: newCodes2, ?_, by simpa using hlen, ?_, ?_, ?_⟩
      · rw [h2]
        simp
      · rw [h1]
        simp
      · intro c hc
        rcases List.mem_cons.mp hc with rfl | hc2
        · exact hcodefresh
        · have := hfresh c hc2
          simp only [List.map_append] at this
          intro hmem
          exact this (List.mem_append_left _ hmem)
      · rw [List.nodup_cons]
        refine ⟨?_, hnodup⟩
        intro hmem
        have := hfresh code hmem
        simp only [List.map_append] at this
        exact this (List.mem_append_right _ (by simp [couponOf]))

theorem couponsLoop_head_pick {tx plan buyer oid : Nat} {cand : Nat → Nat → String}
    {i : Nat} {rest : List Nat} {acc : DB} {codes : List String}
    {res : DB × List String}
    (h : createCouponsLoop tx plan buyer oid cand (i :: rest) acc codes = .ok res) :
    (pickCouponCode (acc.coupons.map (fun c => c.coupon_code)) (cand i)).isSome := by
  simp only [createCouponsLoop] at h
  split at h
  · exact Except.noConfusion h
  next code hpick => rw [hpick]; rfl

theorem applyCredits_ok_shape (db : DB) (tx buyer plan : Nat) (base : Int) (q : Nat) :
    ∀ (l : List (Nat × Int)) (acc : DB) (total : Int) (res : DB × Int),
    applyCreditsLoop db tx buyer plan base q l acc total = .ok res →
    (∀ p ∈ l, roleOf db p.1 = some "admin" → base * (q : Int) ≤ p.2) →
    ∃ rows,
      res.1 = { acc with
        accounts := res.1.accounts
        ledger := acc.ledger ++ rows } ∧
      rowsSum rows = res.2 - total ∧
      (∀ r ∈ rows, r.tx_id = tx ∧
        (r.entry_kind = "admin_base_credit" ∨ r.entry_kind = "profit_credit")) := by
  intro l
  induction l with
  | nil =>
    intro acc total res h _
    simp only [applyCreditsLoop] at h
    injection h with hres
    subst hres
    refine ⟨[], by simp, by simp [rowsSum], by simp⟩
  | cons p rest ih =>
    obtain ⟨uid, cents⟩ := p
    intro acc total res h hl
    simp only [applyCreditsLoop] at h
    split at h
    · exact Except.noConfusion h
    next bal hbal =>
      rw [bind_ok_iff] at h
      obtain ⟨user_obj, huser, h⟩ := h
      have hrole : roleOf db uid = some user_obj.role := by
        unfold get_user at huser
        split at huser
        · exact Except.noConfusion huser
        next u heq =>
          injection huser with hu
          subst hu
          unfold roleOf
          rw [heq]
          rfl
      have hlrest : ∀ p ∈ rest, roleOf db p.1 = some "admin" → base * (q : Int) ≤ p.2 :=
        fun p hp => hl p (List.mem_cons_of_mem _ hp)
      simp only [pure_bind] at h
      split at h
      next hadmin =>
        split at h
        next hpos =>
          obtain ⟨rows2, hshape2, hsum2, hkinds2⟩ := ih _ _ _ h hlrest
          have hx : 0 < cents - base * (q : Int) := by
            by_contra hc
            push_neg at hc
            rw [max_eq_left hc] at hpos
            exact lt_irrefl _ hpos
          refine ⟨(⟨tx, uid, "admin_base_credit", base * (q : Int),
              some buyer, some plan⟩ : LedgerRow) ::
            (⟨tx, uid, "profit_credit", 0 ⊔ (cents - base * (q : Int)),
              some buyer, some plan⟩ : LedgerRow) :: rows2, ?_, ?_, ?_⟩
          · rw [hshape2]
            simp [addLedger, updBal]
          · rw [rowsSum, List.map_cons, List.map_cons, List.sum_cons, List.sum_cons,
              ← rowsSum]
            rw [hsum2, max_eq_right hx.le]
            dsimp only
            omega
          · intro r hr
            rcases List.mem_cons.mp hr with rfl | hr2
            · exact ⟨rfl, Or.inl rfl⟩
            rcases List.mem_cons.mp hr2 with rfl | hr3
            · exact ⟨rfl, Or.inr rfl⟩
            · exact hkinds2 r hr3
        next hpos =>
          obtain ⟨rows2, hshape2, hsum2, hkinds2⟩ := ih _ _ _ h hlrest
          have hbound : base * (q : Int) ≤ cents :=
            hl (uid, cents) (List.mem_cons_self _ _) (by rw [hrole, hadmin])
          have hle : cents - base * (q : Int) ≤ 0 := by
            by_contra hc
            push_neg at hc
            rw [max_eq_right hc.le] at hpos
            exact hpos hc
          have heq : cents = base * (q : Int) := by omega
          refine ⟨(⟨tx, uid, "admin_base_credit", base * (q : Int),
              some buyer, some plan⟩ : LedgerRow) :: rows2, ?_, ?_, ?_⟩
          · rw [hshape2]
            simp [addLedger, updBal]
          · rw [rowsSum, List.map_cons, List.sum_cons, ← rowsSum]
            rw [hsum2]
            dsimp only
            omega
          · intro r hr
            rcases List.mem_cons.mp hr with rfl | hr2
            · exact ⟨rfl, Or.inl rfl⟩
            · exact hkinds2 r hr2
      next hadmin =>
        obtain ⟨rows2, hshape2, hsum2, hkinds2⟩ := ih _ _ _ h hlrest
        refine ⟨(⟨tx, uid, "profit_credit", cents,
            some buyer, some plan⟩ : LedgerRow) :: rows2, ?_, ?_, ?_⟩
        · rw [hshape2]
          simp [addLedger, updBal]
        · rw [rowsSum, List.map_cons, List.sum_cons, ← rowsSum]
          rw [hsum2]
          dsimp only
          omega
        · intro r hr
          rcases List.mem_cons.mp hr with rfl | hr2
          · exact ⟨rfl, Or.inr rfl⟩
          · exact hkinds2 r hr2
theorem roleOf_users_eq {db db2 : DB} (h : db2.users = db.users) (uid : Nat) :
    roleOf db2 uid = roleOf db uid := by
  unfold roleOf findUser
  rw [h]

theorem purchase_inner_ok_shape {db0 : DB} {buyer : UserRec}
    {plan_id quantity tx : Nat} {cand : Nat → Nat → String}
    {res : DB × PurchaseResult}
    (h : purchase_inner db0 buyer plan_id quantity tx cand = .ok res) :
    ∃ rows order newCodes,
      res.1.ledger = db0.ledger ++ rows ∧
      rowsSum rows = 0 ∧
      (∀ r ∈ rows, r.tx_id = tx ∧ r.entry_kind ≠ "topup") ∧
      res.1.orders = db0.orders ++ [order] ∧
      order.tx_id = tx ∧ order.buyer_user_id = buyer.id ∧
      order.plan_id = plan_id ∧ order.quantity = quantity ∧
      res.1.coupons = db0.coupons ++ newCodes.map (couponOf plan_id buyer.id) ∧
      res.1.order_items = db0.order_items ++ newCodes.map (itemOf order.id) ∧
      res.1.coupon_events = db0.coupon_events ++ newCodes.map (eventOf buyer.id tx) ∧
      newCodes.length = quantity ∧ newCodes.Nodup ∧
      (∀ c ∈ newCodes, c ∉ db0.coupons.map (fun x => x.coupon_code)) ∧
      res.2.coupon_codes = newCodes ∧
      res.1.users = db0.users := by
  unfold purchase_inner at h
  split at h
  · exact Except.noConfusion h
  rw [bind_ok_iff] at h
  obtain ⟨plan, hplan, h⟩ := h
  split at h
  · exact Except.noConfusion h
  next buyer_parent hbp =>
    rw [bind_ok_iff] at h
    obtain ⟨unit_price, hup, h⟩ := h
    try dsimp only at h
    rw [bind_ok_iff] at h
    obtain ⟨base_cents, hbase, h⟩ := h
    rw [bind_ok_iff] at h
    obtain ⟨credits_unit, hwalk, h⟩ := h
    try dsimp only at h
    rw [bind_ok_iff] at h
    obtain ⟨db1, hens, h⟩ := h
    rw [bind_ok_iff] at h
    obtain ⟨⟨d2, l⟩, hlock, h⟩ := h
    try dsimp only at h
    split at h
    · exact Except.noConfusion h
    next buyer_bal hbb =>
      split at h
      · exact Except.noConfusion h
      next hsuff =>
        try dsimp only at h
        rw [bind_ok_iff] at h
        obtain ⟨creditres, hcred, h⟩ := h
        try dsimp only at h
        split at h
        next hcons => exact Except.noConfusion h
        next hcons =>
          try dsimp only at h
          rw [bind_ok_iff] at h
          obtain ⟨couponres, hcoup, h⟩ := h
          try dsimp only at h
          injection h with hres
          subst hres
          -- relate the intermediate stores to db0
          have hens1 := (ensure_ok_shape hens).1
          have hlock1 := (lock_ok_shape hlock).2.1
          have hd2ledger : d2.ledger = db0.ledger := by rw [hlock1, hens1]
          have hd2users : d2.users = db0.users := by rw [hlock1, hens1]
          have hd2orders : d2.orders = db0.orders := by rw [hlock1, hens1]
          have hd2coupons : d2.coupons = db0.coupons := by rw [hlock1, hens1]
          have hd2items : d2.order_items = db0.order_items := by rw [hlock1, hens1]
          have hd2events : d2.coupon_events = db0.coupon_events := by
            rw [hlock1, hens1]
          -- the credit application
          have hadmin_bound : ∀ p ∈ credits_unit.map
              (fun p => (p.1, p.2 * (quantity : Int))),
              roleOf (addLedger (updBal d2 buyer.id (buyer_bal - unit_price * (quantity : Int)))
                ⟨tx, buyer.id, "purchase_debit", -(unit_price * (quantity : Int)),
                  some buyer_parent, some plan_id⟩) p.1 = some "admin" →
              base_cents * (quantity : Int) ≤ p.2 := by
            intro p hp hrole
            obtain ⟨p0, hp0, hpe⟩ := List.mem_map.mp hp
            have husers : (addLedger (updBal d2 buyer.id
                (buyer_bal - unit_price * (quantity : Int)))
                ⟨tx, buyer.id, "purchase_debit", -(unit_price * (quantity : Int)),
                  some buyer_parent, some plan_id⟩).users = db0.users := by
              simp [addLedger, updBal, hd2users]
            rw [roleOf_users_eq husers] at hrole
            have hb := walk_ok_admin_bound db0 plan_id base_cents _ buyer [] credits_unit
              hwalk (fun p hp => absurd hp (List.not_mem_nil p)) p0 hp0
              (by rw [← hpe] at hrole; exact hrole)
            rw [← hpe]
            exact mul_le_mul_of_nonneg_right hb (by positivity)
          obtain ⟨crows, hcshape, hcsum, hckinds⟩ :=
            applyCredits_ok_shape _ tx buyer.id plan_id base_cents quantity
              _ _ 0 creditres hcred hadmin_bound
          have htotal : creditres.2 = unit_price * (quantity : Int) := by
            by_contra hc
            exact hcons hc
          obtain ⟨newCodes, hcodes2, hcodeslen, hcoupshape, hcodesfresh, hcodesnodup⟩ :=
            couponsLoop_ok_shape tx plan_id buyer.id _ cand _ _ _ couponres hcoup
          refine ⟨⟨tx, buyer.id, "purchase_debit", -(unit_price * (quantity : Int)),
              some buyer_parent, some plan_id⟩ :: crows,
            ⟨creditres.1.orders.length, tx, buyer.id, plan_id, quantity,
              unit_price, unit_price * (quantity : Int), "paid"⟩, newCodes,
            ?_, ?_, ?_, ?_, rfl, rfl, rfl, rfl, ?_, ?_, ?_, ?_, hcodesnodup, ?_, ?_, ?_⟩
          · rw [hcoupshape]
            simp only
            rw [hcshape]
            simp [addLedger, updBal, hd2ledger]
          · rw [rowsSum, List.map_cons, List.sum_cons, ← rowsSum, hcsum, htotal]
            dsimp only
            omega
          · intro r hr
            rcases List.mem_cons.mp hr with rfl | hr2
            · exact ⟨rfl, by simp⟩
            · obtain ⟨h1, h2⟩ := hckinds r hr2
              refine ⟨h1, ?_⟩
              rcases h2 with h2 | h2 <;> rw [h2] <;> simp
          · rw [hcoupshape]
            simp only
            rw [hcshape]
            simp [addLedger, updBal, hd2orders]
          · rw [hcoupshape]
            simp only
            rw [hcshape]
            simp [addLedger, updBal, hd2coupons]
          · rw [hcoupshape]
            simp only
            rw [hcshape]
            simp [addLedger, updBal, hd2items]
          · rw [hcoupshape]
            simp only
            rw [hcshape]
            simp [addLedger, updBal, hd2events]
          · rw [hcodeslen]
            exact List.length_range quantity
          · intro c hc
            have := hcodesfresh c hc
            rw [hcshape] at this
            simp only [addLedger, updBal] at this
            rw [hd2coupons] at this
            exact this
          · rw [hcodes2]
            simp
          · rw [hcoupshape]
            simp only
            rw [hcshape]
            simp [addLedger, updBal, hd2users]

theorem sellerDel_balanced {db db' : DB} {seller : UserRec} {target tx : Nat}
    {rows : List LedgerRow}
    (h : seller_delete_user_return_balance_to_parent db seller target tx
      = .ok (db', rows)) :
    db'.ledger = db.ledger ++ rows ∧ BalancedGroup tx rows := by
  obtain ⟨tu, d1, _, _, _, hlock, hdb', hrows⟩ := sellerDel_ok_shape h
  obtain ⟨newRows, hfold2, hfold1, hbalanced⟩ :=
    rollup_foldl_shape seller.id tx _ d1 []
  have hd1ledger : d1.ledger = db.ledger := by rw [(lock_ok_shape hlock).2.1]
  have hrowseq : rows = newRows := by
    rw [hrows, hfold2]
    simp
  constructor
  · rw [hdb']
    simp only
    rw [hfold1]
    simp only
    rw [hd1ledger, hrowseq]
  · rw [hrowseq]
    exact hbalanced

/-- C1: every completed wallet-ledger operation writes a balanced group — the
rows it appends under its tx id sum to zero and none of them is a `topup` —
for transfers, both set-balance variants, both delete variants and purchases;
`admin_topup` is the only writer of a (single, unbalanced) `topup` row and
completes only for an actor whose role is `admin` (the root role). -/
theorem C1_ledger_conservation :
    (∀ (db db' : DB) (f t : Nat) (amount : Int) (tx : Nat)
       (rows : List LedgerRow),
      transfer_between_users db f t amount tx = .ok (db', rows) →
      db'.ledger = db.ledger ++ rows ∧ BalancedGroup tx rows) ∧
    (∀ (db db' : DB) (admin : UserRec) (target : Nat) (desired : Int)
       (tx : Nat) (rows : List LedgerRow),
      admin_set_balance_via_parent db admin target desired tx = .ok (db', rows) →
      db'.ledger = db.ledger ++ rows ∧ BalancedGroup tx rows) ∧
    (∀ (db db' : DB) (seller : UserRec) (target : Nat) (desired : Int)
       (tx : Nat) (rows : List LedgerRow),
      seller_set_balance_via_parent db seller target desired tx = .ok (db', rows) →
      db'.ledger = db.ledger ++ rows ∧ BalancedGroup tx rows) ∧
    (∀ (db db' : DB) (admin : UserRec) (target tx : Nat)
       (rows : List LedgerRow),
      admin_delete_user_return_balance_to_parent db admin target tx
        = .ok (db', rows) →
      db'.ledger = db.ledger ++ rows ∧ BalancedGroup tx rows) ∧
    (∀ (db db' : DB) (seller : UserRec) (target tx : Nat)
       (rows : List LedgerRow),
      seller_delete_user_return_balance_to_parent db seller target tx
        = .ok (db', rows) →
      db'.ledger = db.ledger ++ rows ∧ BalancedGroup tx rows) ∧
    (∀ (db db' : DB) (buyer : UserRec) (plan_id quantity tx : Nat)
       (cand : Nat → Nat → String) (r : PurchaseResult),
      purchase_plan_and_distribute db buyer plan_id quantity tx cand
        = (.ok r, db') →
      ∃ rows, db'.ledger = db.ledger ++ rows ∧ BalancedGroup tx rows) ∧
    (∀ (db db' : DB) (admin : UserRec) (target : Nat) (amount : Int)
       (tx : Nat) (row : LedgerRow),
      admin_topup db admin target amount tx = .ok (db', row) →
      admin.role = "admin" ∧ row.entry_kind = "topup" ∧ row.tx_id = tx ∧
      db'.ledger = db.ledger ++ [row]) := by
  refine ⟨?_, ?_, ?_, ?_, ?_, ?_, ?_⟩
  · intro db db' f t amount tx rows h
    obtain ⟨h1, h2⟩ := transfer_ok_shape h
    exact ⟨h1, h2 ▸ transferPair_balanced tx f t amount⟩
  · intro db db' admin target desired tx rows h
    obtain ⟨h1, a, b, d, h2⟩ := adminSet_ok_shape h
    exact ⟨h1, h2 ▸ transferPair_balanced tx a b d⟩
  · intro db db' seller target desired tx rows h
    obtain ⟨h1, a, b, d, h2⟩ := sellerSet_ok_shape h
    exact ⟨h1, h2 ▸ transferPair_balanced tx a b d⟩
  · intro db db' admin target tx rows h
    obtain ⟨h1, h2⟩ := adminDel_ok_shape h
    refine ⟨h1, ?_⟩
    rcases h2 with h2 | ⟨a, b, d, h2⟩
    · exact h2 ▸ balancedGroup_nil tx
    · exact h2 ▸ transferPair_balanced tx a b d
  · intro db db' seller target tx rows h
    exact sellerDel_balanced h
  · intro db db' buyer plan_id quantity tx cand r h
    unfold purchase_plan_and_distribute at h
    split at h
    next e heq =>
      injection h with h1 h2
      exact Except.noConfusion h1
    next d2 r2 heq =>
      injection h with h1 h2
      injection h1 with h1
      subst h1
      subst h2
      obtain ⟨rows, _, _, h1, h2, h3, _⟩ := purchase_inner_ok_shape heq
      exact ⟨rows, h1, h2, h3⟩
  · intro db db' admin target amount tx row h
    exact topup_ok_shape h

/-- C1 witness: a concrete transfer appends a balanced two-row group, and a
concrete admin top-up appends its single `topup` row with the actor's role
being `admin`. -/
theorem C1_ledger_conservation_witness :
    (transfer_between_users scDb 3 2 100 7 =
      .ok (resDB (transfer_between_users scDb 3 2 100 7) scDb,
           resRows (transfer_between_users scDb 3 2 100 7)) ∧
     admin_topup sbDb scA 2 500 8 =
      .ok (resDB (admin_topup sbDb scA 2 500 8) sbDb,
           resRow (admin_topup sbDb scA 2 500 8))) ∧
    ((resDB (transfer_between_users scDb 3 2 100 7) scDb).ledger =
       scDb.ledger ++ resRows (transfer_between_users scDb 3 2 100 7) ∧
     BalancedGroup 7 (resRows (transfer_between_users scDb 3 2 100 7))) ∧
    (scA.role = "admin" ∧
     (resRow (admin_topup sbDb scA 2 500 8)).entry_kind = "topup" ∧
     (resRow (admin_topup sbDb scA 2 500 8)).tx_id = 8 ∧
     (resDB (admin_topup sbDb scA 2 500 8) sbDb).ledger =
       sbDb.ledger ++ [resRow (admin_topup sbDb scA 2 500 8)]) :=
  ⟨⟨by decide, by decide⟩,
   C1_ledger_conservation.1 scDb
     (resDB (transfer_between_users scDb 3 2 100 7) scDb) 3 2 100 7
     (resRows (transfer_between_users scDb 3 2 100 7)) (by decide),
   C1_ledger_conservation.2.2.2.2.2.2 sbDb
     (resDB (admin_topup sbDb scA 2 500 8) sbDb) scA 2 500 8
     (resRow (admin_topup sbDb scA 2 500 8)) (by decide)⟩

theorem purchase_inner_coupon_exhausted {db0 : DB} {buyer : UserRec}
    {plan_id quantity tx : Nat} {cand : Nat → Nat → String}
    (hq : 1 ≤ quantity)
    (htaken : ∀ a, cand 0 a ∈ db0.coupons.map (fun x => x.coupon_code)) :
    ∀ res, purchase_inner db0 buyer plan_id quantity tx cand ≠ .ok res := by
  intro res h
  unfold purchase_inner at h
  split at h
  · exact Except.noConfusion h
  rw [bind_ok_iff] at h
  obtain ⟨plan, hplan, h⟩ := h
  split at h
  · exact Except.noConfusion h
  next buyer_parent hbp =>
    rw [bind_ok_iff] at h
    obtain ⟨unit_price, hup, h⟩ := h
    try dsimp only at h
    rw [bind_ok_iff] at h
    obtain ⟨base_cents, hbase, h⟩ := h
    rw [bind_ok_iff] at h
    obtain ⟨credits_unit, hwalk, h⟩ := h
    try dsimp only at h
    rw [bind_ok_iff] at h
    obtain ⟨db1, hens, h⟩ := h
    rw [bind_ok_iff] at h
    obtain ⟨⟨d2, l⟩, hlock, h⟩ := h
    try dsimp only at h
    split at h
    · exact Except.noConfusion h
    next buyer_bal hbb =>
      split at h
      · exact Except.noConfusion h
      next hsuff =>
        try dsimp only at h
        rw [bind_ok_iff] at h
        obtain ⟨creditres, hcred, h⟩ := h
        try dsimp only at h
        split at h
        next hcons => exact Except.noConfusion h
        next hcons =>
          try dsimp only at h
          rw [bind_ok_iff] at h
          obtain ⟨couponres, hcoup, h⟩ := h
          have hadmin_bound : ∀ p ∈ credits_unit.map
              (fun p => (p.1, p.2 * (quantity : Int))),
              roleOf (addLedger (updBal d2 buyer.id
                  (buyer_bal - unit_price * (quantity : Int)))
                ⟨tx, buyer.id, "purchase_debit", -(unit_price * (quantity : Int)),
                  some buyer_parent, some plan_id⟩) p.1 = some "admin" →
              base_cents * (quantity : Int) ≤ p.2 := by
            intro p hp hrole
            obtain ⟨p0, hp0, hpe⟩ := List.mem_map.mp hp
            have husers : (addLedger (updBal d2 buyer.id
                (buyer_bal - unit_price * (quantity : Int)))
                ⟨tx, buyer.id, "purchase_debit", -(unit_price * (quantity : Int)),
                  some buyer_parent, some plan_id⟩).users = db0.users := by
              simp only [addLedger, updBal]
              rw [(lock_ok_shape hlock).2.1, (ensure_ok_shape hens).1]
            rw [roleOf_users_eq husers] at hrole
            have hb := walk_ok_admin_bound db0 plan_id base_cents _ buyer []
              credits_unit hwalk (fun p hp => absurd hp (List.not_mem_nil p))
              p0 hp0 (by rw [← hpe] at hrole; exact hrole)
            rw [← hpe]
            exact mul_le_mul_of_nonneg_right hb (by positivity)
          obtain ⟨crows, hcshape, _, _⟩ :=
            applyCredits_ok_shape _ tx buyer.id plan_id base_cents quantity
              _ _ 0 creditres hcred hadmin_bound
          have hcoupons : creditres.1.coupons = db0.coupons := by
            rw [hcshape]
            simp only [addLedger, updBal]
            rw [(lock_ok_shape hlock).2.1, (ensure_ok_shape hens).1]
          obtain ⟨n, rfl⟩ : ∃ n, quantity = n + 1 :=
            ⟨quantity - 1, by omega⟩
          rw [List.range_succ_eq_map] at hcoup
          have hpick := couponsLoop_head_pick hcoup
          rw [pickCouponCode_none_of_all_taken (by
            intro a
            simp only
            rw [hcoupons]
            exact htaken a)] at hpick
          exact Bool.noConfusion hpick

/-- C3: a purchase is atomic — an error leaves the pre-transaction store
observable unchanged; a successful purchase writes the buyer debit and all
credits, the order, the freshly generated collision-checked coupons, their
order items and their `generated` events under the single shared tx id; and
when every candidate code for a position collides, the purchase fails fatally
rather than committing. -/
theorem C3_purchase_atomicity :
    (∀ (db : DB) (buyer : UserRec) (plan_id quantity tx : Nat)
       (cand : Nat → Nat → String) (e : Err),
      (purchase_plan_and_distribute db buyer plan_id quantity tx cand).1
        = .error e →
      (purchase_plan_and_distribute db buyer plan_id quantity tx cand).2 = db) ∧
    (∀ (db db' : DB) (buyer : UserRec) (plan_id quantity tx : Nat)
       (cand : Nat → Nat → String) (r : PurchaseResult),
      purchase_plan_and_distribute db buyer plan_id quantity tx cand
        = (.ok r, db') →
      ∃ rows order newCodes,
        db'.ledger = db.ledger ++ rows ∧
        (∀ row ∈ rows, row.tx_id = tx) ∧
        db'.orders = db.orders ++ [order] ∧ order.tx_id = tx ∧
        db'.coupons = db.coupons ++ newCodes.map (couponOf plan_id buyer.id) ∧
        db'.order_items = db.order_items ++ newCodes.map (itemOf order.id) ∧
        db'.coupon_events = db.coupon_events ++
          newCodes.map (eventOf buyer.id tx) ∧
        newCodes.length = quantity ∧ newCodes.Nodup ∧
        (∀ c ∈ newCodes, c ∉ db.coupons.map (fun x => x.coupon_code)) ∧
        r.coupon_codes = newCodes) ∧
    (∀ (db : DB) (buyer : UserRec) (plan_id quantity tx : Nat)
       (cand : Nat → Nat → String),
      1 ≤ quantity →
      (∀ a, cand 0 a ∈ db.coupons.map (fun x => x.coupon_code)) →
      mOk (purchase_plan_and_distribute db buyer plan_id quantity tx cand).1
        = false) := by
  refine ⟨?_, ?_, ?_⟩
  · intro db buyer plan_id quantity tx cand e h
    unfold purchase_plan_and_distribute at h ⊢
    split at h
    · rfl
    · exact Except.noConfusion h
  · intro db db' buyer plan_id quantity tx cand r h
    unfold purchase_plan_and_distribute at h
    split at h
    next e heq =>
      injection h with h1 h2
      exact Except.noConfusion h1
    next d2 r2 heq =>
      injection h with h1 h2
      injection h1 with h1
      subst h1
      subst h2
      obtain ⟨rows, order, newCodes, hledger, _, hkinds, horders, hotx, _, _, _,
        hcoupons, hitems, hevents, hlen, hnodup, hfresh, hcodes, _⟩ :=
        purchase_inner_ok_shape heq
      exact ⟨rows, order, newCodes, hledger, fun row hr => (hkinds row hr).1,
        horders, hotx, hcoupons, hitems, hevents, hlen, hnodup, hfresh, hcodes⟩
  · intro db buyer plan_id quantity tx cand hq htaken
    unfold purchase_plan_and_distribute
    cases hres : purchase_inner db buyer plan_id quantity tx cand with
    | error e => rfl
    | ok res => exact absurd hres (purchase_inner_coupon_exhausted hq htaken res)

/-- C3 witness: the worked-scenario purchase commits everything under tx 77;
a zero-quantity purchase errors and leaves the store unchanged; a generator
whose candidates all collide with an existing code makes the purchase fail. -/
theorem C3_purchase_atomicity_witness :
    ((purchase_plan_and_distribute scDb scB 10 0 77 scCand).1 =
      .error (.purchaseError "quantity must be >= 1.") ∧
     purchase_plan_and_distribute scDb scB 10 2 77 scCand =
      (.ok { tx_id := 77, plan_id := 10, buyer_user_id := 3,
             purchase_price_cents := 200,
             credits_by_user := [(2, 50), (1, 150)], order_id := 0,
             quantity := 2, total_paid_cents := 400,
             coupon_codes := ["C-0-0", "C-1-0"] },
       (purchase_plan_and_distribute scDb scB 10 2 77 scCand).2) ∧
     1 ≤ 2 ∧
     (∀ a, collideCand 0 a ∈ scDbTaken.coupons.map (fun x => x.coupon_code))) ∧
    (purchase_plan_and_distribute scDb scB 10 0 77 scCand).2 = scDb ∧
    (∃ rows order newCodes,
      (purchase_plan_and_distribute scDb scB 10 2 77 scCand).2.ledger =
        scDb.ledger ++ rows ∧
      (∀ row ∈ rows, row.tx_id = 77) ∧
      (purchase_plan_and_distribute scDb scB 10 2 77 scCand).2.orders =
        scDb.orders ++ [order] ∧ order.tx_id = 77 ∧
      (purchase_plan_and_distribute scDb scB 10 2 77 scCand).2.coupons =
        scDb.coupons ++ newCodes.map (couponOf 10 3) ∧
      (purchase_plan_and_distribute scDb scB 10 2 77 scCand).2.order_items =
        scDb.order_items ++ newCodes.map (itemOf order.id) ∧
      (purchase_plan_and_distribute scDb scB 10 2 77 scCand).2.coupon_events =
        scDb.coupon_events ++ newCodes.map (eventOf 3 77) ∧
      newCodes.length = 2 ∧ newCodes.Nodup ∧
      (∀ c ∈ newCodes, c ∉ scDb.coupons.map (fun x => x.coupon_code)) ∧
      ({ tx_id := 77, plan_id := 10, buyer_user_id := 3,
         purchase_price_cents := 200, credits_by_user := [(2, 50), (1, 150)],
         order_id := 0, quantity := 2, total_paid_cents := 400,
         coupon_codes := ["C-0-0", "C-1-0"] } : PurchaseResult).coupon_codes
        = newCodes) ∧
    mOk (purchase_plan_and_distribute scDbTaken scB 10 2 77 collideCand).1
      = false :=
  ⟨⟨by decide, by decide, by decide,
    fun a => by
      show "TAKEN" ∈ scDbTaken.coupons.map (fun x => x.coupon_code)
      decide⟩,
   C3_purchase_atomicity.1 scDb scB 10 0 77 scCand
     (.purchaseError "quantity must be >= 1.") (by decide),
   (by
      have hbuyer3 : (3 : Nat) = scB.id := by decide
      exact hbuyer3 ▸ C3_purchase_atomicity.2.1 scDb
        (purchase_plan_and_distribute scDb scB 10 2 77 scCand).2 scB 10 2 77
        scCand
        { tx_id := 77, plan_id := 10, buyer_user_id := 3,
          purchase_price_cents := 200, credits_by_user := [(2, 50), (1, 150)],
          order_id := 0, quantity := 2, total_paid_cents := 400,
          coupon_codes := ["C-0-0", "C-1-0"] } (by decide)),
   C3_purchase_atomicity.2.2 scDbTaken scB 10 2 77 collideCand (by decide)
     (fun a => by
       show "TAKEN" ∈ scDbTaken.coupons.map (fun x => x.coupon_code)
       decide)⟩

theorem findEdge_key {db : DB} {parent child plan : Nat} {row : EdgeRow}
    (h : findEdge db parent child plan = some row) :
    row.parent_user_id = parent ∧ row.child_user_id = child ∧
    row.plan_id = plan := by
  have := List.find?_some h
  simpa using this

theorem find?_append_none {α : Type} (p : α → Bool) (l1 l2 : List α)
    (h : l1.find? p = none) : (l1 ++ l2).find? p = l2.find? p := by
  induction l1 with
  | nil => simp
  | cons a rest ih =>
    cases hp : p a with
    | true => rw [List.find?_cons_of_pos _ hp] at h; exact Option.noConfusion h
    | false =>
      rw [List.find?_cons_of_neg _ (by simp [hp])] at h
      rw [List.cons_append, List.find?_cons_of_neg _ (by simp [hp])]
      exact ih h

theorem findEdge_upsertEdgeRow (db : DB) (parent child plan : Nat)
    (row : EdgeRow)
    (hk : row.parent_user_id = parent ∧ row.child_user_id = child ∧
      row.plan_id = plan) :
    findEdge (upsertEdgeRow db parent child plan row) parent child plan
      = some row := by
  unfold upsertEdgeRow
  split
  next hex =>
    unfold findEdge at hex ⊢
    simp only
    revert hex
    induction db.edges with
    | nil => intro hex; exact absurd hex (by simp)
    | cons e rest ih =>
      intro hex
      by_cases hpe : (e.parent_user_id = parent ∧ e.child_user_id = child ∧
          e.plan_id = plan)
      · rw [List.map_cons, if_pos hpe, List.find?_cons_of_pos _ (by
          simpa using hk)]
      · rw [List.map_cons, if_neg hpe, List.find?_cons_of_neg _ (by
          simpa using hpe)]
        refine ih ?_
        rw [List.find?_cons_of_neg _ (by simpa using hpe)] at hex
        exact hex
  next hex =>
    unfold findEdge at hex ⊢
    simp only
    rw [find?_append_none _ _ _ (Option.not_isSome_iff_eq_none.mp hex)]
    rw [List.find?_cons_of_pos _ (by simpa using hk)]

theorem adminOverride_ok_elim {db db' : DB}
    {admin parent child plan : Nat} {price : Int} {cur : String} {row : EdgeRow}
    (h : upsert_edge_price_admin_override db admin parent child plan price cur
      = .ok (db', row)) :
    row.is_admin_override = true ∧ row.price_cents = price ∧
    findEdge db' parent child plan = some row ∧ db'.users = db.users := by
  unfold upsert_edge_price_admin_override at h
  rw [bind_ok_iff] at h
  obtain ⟨u, hens, h⟩ := h
  try dsimp only at h
  split at h
  next row0 hfe =>
    injection h with h1
    injection h1 with hdb hrow
    subst hdb
    subst hrow
    obtain ⟨k1, k2, k3⟩ := findEdge_key hfe
    refine ⟨rfl, rfl, ?_, ?_⟩
    · exact findEdge_upsertEdgeRow db parent child plan _ ⟨k1, k2, k3⟩
    · unfold upsertEdgeRow
      split <;> rfl
  next hfe =>
    injection h with h1
    injection h1 with hdb hrow
    subst hdb
    subst hrow
    refine ⟨rfl, rfl, ?_, ?_⟩
    · exact findEdge_upsertEdgeRow db parent child plan _ ⟨rfl, rfl, rfl⟩
    · unfold upsertEdgeRow
      split <;> rfl

/-- C5: a non-override (seller) edge upsert whose price is strictly below the
parent's own acquisition cost always fails, with no edge row written; the root
may always set the edge for a real direct link, bypassing the floor, marking
it `is_admin_override`; and after such an override a seller upsert on that
edge always fails and modifies nothing. -/
theorem C5_margin_floor_and_override :
    (∀ (db : DB) (actor child plan : Nat) (price : Int) (cur : String)
       (cost : ParentCost),
      determine_parent_cost db actor plan = .ok cost →
      price < cost.parent_cost_cents →
      mOk (upsert_edge_price_seller db actor child plan price cur) = false) ∧
    (∀ (db : DB) (admin parent child plan : Nat) (price : Int) (cur : String),
      mOk (ensure_child_is_direct db parent child) = true →
      ∃ db' row,
        upsert_edge_price_admin_override db admin parent child plan price cur
          = .ok (db', row) ∧
        row.is_admin_override = true ∧ row.price_cents = price ∧
        findEdge db' parent child plan = some row) ∧
    (∀ (db db' : DB) (admin parent child plan : Nat) (p1 : Int) (c1 : String)
       (row : EdgeRow) (p2 : Int) (c2 : String),
      upsert_edge_price_admin_override db admin parent child plan p1 c1
        = .ok (db', row) →
      mOk (upsert_edge_price_seller db' parent child plan p2 c2) = false) := by
  refine ⟨?_, ?_, ?_⟩
  · intro db actor child plan price cur cost hdet hlow
    unfold upsert_edge_price_seller
    cases he : ensure_child_is_direct db actor child with
    | error e => rw [error_bind]; rfl
    | ok u =>
      rw [ok_bind]
      by_cases hhp : ¬ seller_has_plan_enabled db actor plan
      · rw [if_pos hhp]; rfl
      · rw [if_neg hhp, hdet, ok_bind]
        by_cases hc : cur ≠ cost.currency
        · rw [if_pos hc]; rfl
        · rw [if_neg hc, if_pos hlow]; rfl
  · intro db admin parent child plan price cur hens
    cases he : ensure_child_is_direct db parent child with
    | error e => rw [he] at hens; exact Bool.noConfusion hens
    | ok u =>
      cases u
      cases hcall : upsert_edge_price_admin_override db admin parent child plan
          price cur with
      | error e =>
        exfalso
        unfold upsert_edge_price_admin_override at hcall
        rw [he, ok_bind] at hcall
        exact Except.noConfusion hcall
      | ok res =>
        obtain ⟨d, r⟩ := res
        obtain ⟨h1, h2, h3, _⟩ := adminOverride_ok_elim hcall
        exact ⟨d, r, rfl, h1, h2, h3⟩
  · intro db db' admin parent child plan p1 c1 row p2 c2 h
    obtain ⟨hov, _, hfe, _⟩ := adminOverride_ok_elim h
    unfold upsert_edge_price_seller
    cases he : ensure_child_is_direct db' parent child with
    | error e => rw [error_bind]; rfl
    | ok u =>
      rw [ok_bind]
      by_cases hhp : ¬ seller_has_plan_enabled db' parent plan
      · rw [if_pos hhp]; rfl
      · rw [if_neg hhp]
        cases hdet : determine_parent_cost db' parent plan with
        | error e => rw [error_bind]; rfl
        | ok cost =>
          rw [ok_bind]
          by_cases hc : c2 ≠ cost.currency
          · rw [if_pos hc]; rfl
          · rw [if_neg hc]
            by_cases hlow : p2 < cost.parent_cost_cents
            · rw [if_pos hlow]; rfl
            · rw [if_neg hlow, hfe]
              simp only
              rw [if_pos hov]
              rfl

/-- C5 witness: reseller A (cost 150) cannot set a price of 100 for its child;
the root overrides the A→B edge to 10 (below cost) with the override flag set;
afterwards A's own upsert on that edge fails. -/
theorem C5_margin_floor_and_override_witness :
    (determine_parent_cost scDb 2 10 =
       .ok { parent_cost_cents := 150, currency := "USD",
             source := "edge_price" } ∧
     (100 : Int) < 150 ∧
     mOk (ensure_child_is_direct scDb 2 3) = true ∧
     upsert_edge_price_admin_override scDb 1 2 3 10 10 "USD" =
       .ok (resDB (upsert_edge_price_admin_override scDb 1 2 3 10 10 "USD") scDb,
            resEdge (upsert_edge_price_admin_override scDb 1 2 3 10 10 "USD"))) ∧
    mOk (upsert_edge_price_seller scDb 2 3 10 100 "USD") = false ∧
    (∃ db' row,
      upsert_edge_price_admin_override scDb 1 2 3 10 10 "USD" = .ok (db', row) ∧
      row.is_admin_override = true ∧ row.price_cents = 10 ∧
      findEdge db' 2 3 10 = some row) ∧
    mOk (upsert_edge_price_seller
      (resDB (upsert_edge_price_admin_override scDb 1 2 3 10 10 "USD") scDb)
      2 3 10 500 "USD") = false :=
  ⟨⟨by decide, by decide, by decide, by decide⟩,
   C5_margin_floor_and_override.1 scDb 2 3 10 100 "USD"
     { parent_cost_cents := 150, currency := "USD", source := "edge_price" }
     (by decide) (by decide),
   C5_margin_floor_and_override.2.1 scDb 1 2 3 10 10 "USD" (by decide),
   C5_margin_floor_and_override.2.2 scDb
     (resDB (upsert_edge_price_admin_override scDb 1 2 3 10 10 "USD") scDb)
     1 2 3 10 10 "USD"
     (resEdge (upsert_edge_price_admin_override scDb 1 2 3 10 10 "USD"))
     500 "USD" (by decide)⟩

/-- C6 is refuted at a negative desired balance: on a fully valid setup
(admin actor, target with parent, parent balance 1000, target balance 0) a
desired balance of −1 differs from the current balance, yet the code rejects
the call with `WalletError` instead of performing the claimed transfer of
|delta| from the target back to the parent. -/
theorem C6_counterexample_negative_desired :
    getBal sbDb.accounts 2 = some 0 ∧ (-1 : Int) ≠ 0 ∧
    scA.role = "admin" ∧ findUser sbDb 2 = some delTgt ∧
    delTgt.parent_id = some 1 ∧ getBal sbDb.accounts 1 = some 1000 ∧
    admin_set_balance_via_parent sbDb scA 2 (-1) 9 =
      .error (.walletError "Target balance cannot be negative.") ∧
    seller_set_balance_via_parent sbSellerDb sellerOwner 3 (-1) 9 =
      .error (.walletError "Target balance cannot be negative.") := by
  decide

/-- C6 (amended with the non-negativity the code enforces): for every valid
set-balance-via-parent call with `0 ≤ desired` and `desired ≠ current`,
`delta = desired − current` is transferred between the target's parent and the
target — failing with `InsufficientBalance` when positive delta exceeds the
parent's balance — always as one two-row `transfer_out`/`transfer_in` pair
appended to the ledger, with both cached balances moved by exactly the pair's
amounts (never an unlogged overwrite); both the admin and seller variants. -/
theorem C6_set_balance_delta_transfer :
    (∀ (db : DB) (admin tu : UserRec) (target pid : Nat)
       (current pb desired : Int) (tx : Nat),
      admin.role = "admin" → findUser db target = some tu →
      tu.parent_id = some pid → (findUser db pid).isSome → target ≠ pid →
      getBal db.accounts target = some current →
      getBal db.accounts pid = some pb →
      0 ≤ desired → desired ≠ current →
      ((desired > current → pb < desired - current →
        admin_set_balance_via_parent db admin target desired tx =
          .error (.insufficientBalance "Parent has insufficient balance.")) ∧
       (desired > current → desired - current ≤ pb →
        ∃ db', admin_set_balance_via_parent db admin target desired tx =
          .ok (db', transferPair tx pid target (desired - current)) ∧
          db'.ledger = db.ledger ++ transferPair tx pid target (desired - current) ∧
          getBal db'.accounts target = some desired ∧
          getBal db'.accounts pid = some (pb - (desired - current))) ∧
       (desired < current →
        ∃ db', admin_set_balance_via_parent db admin target desired tx =
          .ok (db', transferPair tx target pid (current - desired)) ∧
          db'.ledger = db.ledger ++ transferPair tx target pid (current - desired) ∧
          getBal db'.accounts target = some desired ∧
          getBal db'.accounts pid = some (pb + (current - desired))))) ∧
    (∀ (db : DB) (seller tu : UserRec) (target : Nat)
       (current pb desired : Int) (tx : Nat),
      seller.role = "seller" → findUser db target = some tu →
      tu.parent_id = some seller.id → (findUser db seller.id).isSome →
      target ≠ seller.id →
      getBal db.accounts target = some current →
      getBal db.accounts seller.id = some pb →
      0 ≤ desired → desired ≠ current →
      ((desired > current → pb < desired - current →
        seller_set_balance_via_parent db seller target desired tx =
          .error (.insufficientBalance "Insufficient seller balance.")) ∧
       (desired > current → desired - current ≤ pb →
        ∃ db', seller_set_balance_via_parent db seller target desired tx =
          .ok (db', transferPair tx seller.id target (desired - current)) ∧
          db'.ledger = db.ledger ++
            transferPair tx seller.id target (desired - current) ∧
          getBal db'.accounts target = some desired ∧
          getBal db'.accounts seller.id = some (pb - (desired - current))) ∧
       (desired < current →
        ∃ db', seller_set_balance_via_parent db seller target desired tx =
          .ok (db', transferPair tx target seller.id (current - desired)) ∧
          db'.ledger = db.ledger ++
            transferPair tx target seller.id (current - desired) ∧
          getBal db'.accounts target = some desired ∧
          getBal db'.accounts seller.id = some (pb + (current - desired))))) := by
  constructor
  · intro db admin tu target pid current pb desired tx
      hrole hfind hpar hpu hne hbt hbp hpos hneq
    obtain ⟨d1, hlock⟩ := @lock_ok_of_users db [target, pid]
      (by intro v hv
          rcases List.mem_pair.mp hv with h | h <;> subst h
          · simp [hfind]
          · exact hpu)
    have hbal1 := (lock_ok_shape hlock).2.2 target
    rw [if_pos (by simp), hbt, Option.getD_some] at hbal1
    have hbal2 := (lock_ok_shape hlock).2.2 pid
    rw [if_pos (by simp), hbp, Option.getD_some] at hbal2
    have hledger : d1.ledger = db.ledger := by rw [(lock_ok_shape hlock).2.1]
    have heval : admin_set_balance_via_parent db admin target desired tx =
        (if desired = current then
          .error (.walletError "Target balance equals current balance.")
        else if desired > current then
          (if pb < desired - current then
            .error (.insufficientBalance "Parent has insufficient balance.")
          else
            .ok ((transferPair tx pid target (desired - current)).foldl addLedger
              (updBal (updBal d1 pid (pb - (desired - current))) target
                (current + (desired - current))),
              transferPair tx pid target (desired - current)))
        else
          .ok ((transferPair tx target pid (current - desired)).foldl addLedger
            (updBal (updBal d1 pid (pb + (current - desired))) target
              (current - (current - desired))),
            transferPair tx target pid (current - desired))) := by
      unfold admin_set_balance_via_parent
      rw [if_neg (by simp [hrole]), if_neg (by omega), hfind]
      simp only
      rw [hpar]
      simp only
      rw [hlock, ok_bind]
      simp only
      rw [hbal1, hbal2]
    refine ⟨?_, ?_, ?_⟩
    · intro hgt hlt
      rw [heval, if_neg hneq, if_pos hgt, if_pos hlt]
    · intro hgt hge
      rw [heval, if_neg hneq, if_pos hgt, if_neg (by omega)]
      refine ⟨_, rfl, ?_, ?_, ?_⟩
      · rw [foldl_addLedger_shape]
        simp [updBal, hledger]
      · rw [foldl_addLedger_shape]
        simp only [updBal]
        rw [getBal_setBal, if_pos rfl, getBal_setBal, if_neg hne, hbal1]
        show some _ = some desired
        congr 1
        dsimp only
        omega
      · rw [foldl_addLedger_shape]
        simp only [updBal]
        rw [getBal_setBal, if_neg (fun hc => hne hc.symm), getBal_setBal,
          if_pos rfl, hbal2]
        rfl
    · intro hlt
      rw [heval, if_neg hneq, if_neg (by omega)]
      refine ⟨_, rfl, ?_, ?_, ?_⟩
      · rw [foldl_addLedger_shape]
        simp [updBal, hledger]
      · rw [foldl_addLedger_shape]
        simp only [updBal]
        rw [getBal_setBal, if_pos rfl, getBal_setBal, if_neg hne, hbal1]
        show some _ = some desired
        congr 1
        dsimp only
        omega
      · rw [foldl_addLedger_shape]
        simp only [updBal]
        rw [getBal_setBal, if_neg (fun hc => hne hc.symm), getBal_setBal,
          if_pos rfl, hbal2]
        rfl
  · intro db seller tu target current pb desired tx
      hrole hfind hpar hpu hne hbt hbp hpos hneq
    obtain ⟨d1, hlock⟩ := @lock_ok_of_users db [target, seller.id]
      (by intro v hv
          rcases List.mem_pair.mp hv with h | h <;> subst h
          · simp [hfind]
          · exact hpu)
    have hbal1 := (lock_ok_shape hlock).2.2 target
    rw [if_pos (by simp), hbt, Option.getD_some] at hbal1
    have hbal2 := (lock_ok_shape hlock).2.2 seller.id
    rw [if_pos (by simp), hbp, Option.getD_some] at hbal2
    have hledger : d1.ledger = db.ledger := by rw [(lock_ok_shape hlock).2.1]
    have heval : seller_set_balance_via_parent db seller target desired tx =
        (if desired = current then
          .error (.walletError "Target balance equals current balance.")
        else if desired > current then
          (if pb < desired - current then
            .error (.insufficientBalance "Insufficient seller balance.")
          else
            .ok ((transferPair tx seller.id target (desired - current)).foldl
              addLedger
              (updBal (updBal d1 seller.id (pb - (desired - current))) target
                (current + (desired - current))),
              transferPair tx seller.id target (desired - current)))
        else
          .ok ((transferPair tx target seller.id (current - desired)).foldl
            addLedger
            (updBal (updBal d1 seller.id (pb + (current - desired))) target
              (current - (current - desired))),
            transferPair tx target seller.id (current - desired))) := by
      unfold seller_set_balance_via_parent
      rw [if_neg (by simp [hrole]), if_neg (by omega), hfind]
      simp only
      rw [if_neg (by simp [hpar])]
      rw [hlock, ok_bind]
      simp only
      rw [hbal1, hbal2]
    refine ⟨?_, ?_, ?_⟩
    · intro hgt hlt
      rw [heval, if_neg hneq, if_pos hgt, if_pos hlt]
    · intro hgt hge
      rw [heval, if_neg hneq, if_pos hgt, if_neg (by omega)]
      refine ⟨_, rfl, ?_, ?_, ?_⟩
      · rw [foldl_addLedger_shape]
        simp [updBal, hledger]
      · rw [foldl_addLedger_shape]
        simp only [updBal]
        rw [getBal_setBal, if_pos rfl, getBal_setBal, if_neg hne, hbal1]
        show some _ = some desired
        congr 1
        dsimp only
        omega
      · rw [foldl_addLedger_shape]
        simp only [updBal]
        rw [getBal_setBal, if_neg (fun hc => hne hc.symm), getBal_setBal,
          if_pos rfl, hbal2]
        rfl
    · intro hlt
      rw [heval, if_neg hneq, if_neg (by omega)]
      refine ⟨_, rfl, ?_, ?_, ?_⟩
      · rw [foldl_addLedger_shape]
        simp [updBal, hledger]
      · rw [foldl_addLedger_shape]
        simp only [updBal]
        rw [getBal_setBal, if_pos rfl, getBal_setBal, if_neg hne, hbal1]
        show some _ = some desired
        congr 1
        dsimp only
        omega
      · rw [foldl_addLedger_shape]
        simp only [updBal]
        rw [getBal_setBal, if_neg (fun hc => hne hc.symm), getBal_setBal,
          if_pos rfl, hbal2]
        rfl

/-- C6 witness: the admin raises child 2 from 0 to 500 out of the parent's
1000 — one `transfer_out`/`transfer_in` pair, both cached balances moved by
the pair's amounts — and an excessive desired balance of 5000 yields
`InsufficientBalance`. -/
theorem C6_set_balance_delta_transfer_witness :
    (scA.role = "admin" ∧ findUser sbDb 2 = some delTgt ∧
     delTgt.parent_id = some 1 ∧ (findUser sbDb 1).isSome = true ∧
     (2 : Nat) ≠ 1 ∧ getBal sbDb.accounts 2 = some 0 ∧
     getBal sbDb.accounts 1 = some 1000 ∧ (0 : Int) ≤ 500 ∧
     (500 : Int) ≠ 0 ∧ (500 : Int) > 0 ∧ (500 : Int) - 0 ≤ 1000 ∧
     (0 : Int) ≤ 5000 ∧ (5000 : Int) ≠ 0 ∧ (5000 : Int) > 0 ∧
     (1000 : Int) < 5000 - 0) ∧
    (∃ db', admin_set_balance_via_parent sbDb scA 2 500 9 =
      .ok (db', transferPair 9 1 2 (500 - 0)) ∧
      db'.ledger = sbDb.ledger ++ transferPair 9 1 2 (500 - 0) ∧
      getBal db'.accounts 2 = some 500 ∧
      getBal db'.accounts 1 = some (1000 - (500 - 0))) ∧
    admin_set_balance_via_parent sbDb scA 2 5000 9 =
      .error (.insufficientBalance "Parent has insufficient balance.") :=
  ⟨⟨by decide, by decide, by decide, by decide, by decide, by decide,
    by decide, by decide, by decide, by decide, by decide, by decide,
    by decide, by decide, by decide⟩,
   (C6_set_balance_delta_transfer.1 sbDb scA delTgt 2 1 0 1000 500 9
     (by decide) (by decide) (by decide) (by decide) (by decide) (by decide)
     (by decide) (by decide) (by decide)).2.1 (by decide) (by decide),
   (C6_set_balance_delta_transfer.1 sbDb scA delTgt 2 1 0 1000 5000 9
     (by decide) (by decide) (by decide) (by decide) (by decide) (by decide)
     (by decide) (by decide) (by decide)).1 (by decide) (by decide)⟩

theorem parentOk_cases {users : List UserRec} {u : UserRec}
    (h : parentOkB users u = true) :
    (u.parent_id = none ∧ u.path = [u.id] ∧ u.depth = 0) ∨
    (∃ p pu, u.parent_id = some p ∧ pu ∈ users ∧ pu.id = p ∧
      u.path = pu.path ++ [u.id] ∧ u.depth = pu.depth + 1) := by
  unfold parentOkB at h
  cases hp : u.parent_id with
  | none =>
    rw [hp] at h
    exact Or.inl ⟨rfl, by simpa using h⟩
  | some p =>
    rw [hp] at h
    rw [List.any_eq_true] at h
    obtain ⟨pu, hpu, hprop⟩ := h
    simp only [decide_eq_true_eq, Bool.and_eq_true] at hprop
    exact Or.inr ⟨p, pu, rfl, hpu, hprop.1, hprop.2.1, hprop.2.2⟩

theorem wf_path_concat {users : List UserRec} (hwf : WFTree users) :
    ∀ u ∈ users, ∃ pre, u.path = pre ++ [u.id] := by
  intro u hu
  rcases parentOk_cases (hwf.2 u hu) with ⟨_, hpath, _⟩ |
    ⟨p, pu, _, _, _, hpath, _⟩
  · exact ⟨[], by simpa using hpath⟩
  · exact ⟨pu.path, hpath⟩

theorem wf_path_inj {users : List UserRec} (hwf : WFTree users) :
    ∀ u ∈ users, ∀ v ∈ users, u.path = v.path → u = v := by
  intro u hu v hv heq
  obtain ⟨pre1, h1⟩ := wf_path_concat hwf u hu
  obtain ⟨pre2, h2⟩ := wf_path_concat hwf v hv
  have hlast : some u.id = some v.id := by
    rw [← List.getLast?_concat pre1, ← h1, heq, h2, List.getLast?_concat]
  injection hlast with hid
  exact hwf.1 u hu v hv hid

theorem wf_path_length {users : List UserRec} (hwf : WFTree users) :
    ∀ (n : Nat), ∀ u ∈ users, u.depth ≤ n → u.path.length = u.depth + 1 := by
  intro n
  induction n with
  | zero =>
    intro u hu hd
    rcases parentOk_cases (hwf.2 u hu) with ⟨_, hpath, hdep⟩ |
      ⟨p, pu, _, _, _, _, hdep⟩
    · rw [hpath, hdep]
      rfl
    · omega
  | succ n ih =>
    intro u hu hd
    rcases parentOk_cases (hwf.2 u hu) with ⟨_, hpath, hdep⟩ |
      ⟨p, pu, _, hpu, _, hpath, hdep⟩
    · rw [hpath, hdep]
      rfl
    · rw [hpath, List.length_append, ih pu hpu (by omega), hdep]
      simp

theorem wf_ancestor_at {users : List UserRec} (hwf : WFTree users) :
    ∀ (n : Nat), ∀ u ∈ users, u.depth ≤ n → ∀ k, k ≤ u.depth →
    ∃ c ∈ users, c.depth = k ∧ c.path = u.path.take (k + 1) := by
  intro n
  induction n with
  | zero =>
    intro u hu hd k hk
    have hk0 : k = 0 := by omega
    subst hk0
    refine ⟨u, hu, by omega, ?_⟩
    rw [List.take_of_length_le (by
      rw [wf_path_length hwf 0 u hu hd]
      omega)]
  | succ n ih =>
    intro u hu hd k hk
    by_cases hke : k = u.depth
    · subst hke
      refine ⟨u, hu, rfl, ?_⟩
      rw [List.take_of_length_le (by
        rw [wf_path_length hwf (n + 1) u hu hd])]
    · have hklt : k < u.depth := by omega
      rcases parentOk_cases (hwf.2 u hu) with ⟨_, _, hdep⟩ |
        ⟨p, pu, _, hpu, _, hpath, hdep⟩
      · omega
      · obtain ⟨c, hc, hcd, hcp⟩ := ih pu hpu (by omega) k (by omega)
        refine ⟨c, hc, hcd, ?_⟩
        rw [hpath, hcp, List.take_append_eq_append_take]
        have hpulen : pu.path.length = pu.depth + 1 :=
          wf_path_length hwf n pu hpu (by omega)
        rw [show k + 1 - pu.path.length = 0 by omega]
        simp

/-- C8: on a well-formed user directory, the rollup query's bucket — the
seller's path extended by the single path label of the row's user at depth
`seller.depth + 1`, a pure operation on the materialized path — resolves a
row of the seller itself to the seller, and any strict descendant to the
unique direct child of the seller whose subtree contains that descendant. -/
theorem C8_direct_child_bucket (db : DB) (a d : UserRec)
    (hwf : WFTree db.users) (ha : a ∈ db.users) (hd : d ∈ db.users)
    (hdesc : pathDescOf d.path a.path = true) (hne : d.id ≠ a.id) :
    directChildBucket db a a = some a.id ∧
    ∃ c ∈ db.users, c.parent_id = some a.id ∧
      pathDescOf d.path c.path = true ∧
      directChildBucket db a d = some c.id ∧
      ∀ c2 ∈ db.users, c2.parent_id = some a.id →
        pathDescOf d.path c2.path = true → c2 = c := by
  refine ⟨by simp [directChildBucket], ?_⟩
  have hpre : a.path <+: d.path := by
    simpa [pathDescOf] using hdesc
  obtain ⟨suffix, hsuf⟩ := hpre
  have halen : a.path.length = a.depth + 1 :=
    wf_path_length hwf a.depth a ha le_rfl
  have hdlen : d.path.length = d.depth + 1 :=
    wf_path_length hwf d.depth d hd le_rfl
  have hsufne : suffix ≠ [] := by
    intro hnil
    apply hne
    have hpeq : d.path = a.path := by rw [← hsuf, hnil, List.append_nil]
    rw [wf_path_inj hwf d hd a ha hpeq]
  obtain ⟨s0, rest, rfl⟩ : ∃ s0 rest, suffix = s0 :: rest := by
    cases suffix with
    | nil => exact absurd rfl hsufne
    | cons s0 rest => exact ⟨s0, rest, rfl⟩
  have hdd : a.depth + 1 ≤ d.depth := by
    have hlen : d.path.length = a.path.length + (s0 :: rest).length := by
      rw [← hsuf, List.length_append]
    simp only [List.length_cons] at hlen
    omega
  obtain ⟨c, hc, hcd, hcp⟩ :=
    wf_ancestor_at hwf d.depth d hd le_rfl (a.depth + 1) hdd
  have htake : d.path.take (a.depth + 1 + 1) = a.path ++ [s0] := by
    rw [← hsuf, List.take_append_eq_append_take]
    rw [show a.depth + 1 + 1 - a.path.length = 1 by omega]
    rw [List.take_of_length_le (by omega)]
    simp
  have hbucket : bucketPath a.path a.depth d.path = a.path ++ [s0] := by
    unfold bucketPath
    rw [← hsuf, List.drop_left' halen]
    simp
  have hcpath : c.path = a.path ++ [s0] := by rw [hcp, htake]
  rcases parentOk_cases (hwf.2 c hc) with ⟨_, _, hcd0⟩ |
    ⟨p, pu, hpid, hpu, hpuid, hcpath2, hcd2⟩
  · omega
  · have hpulen : pu.path.length = pu.depth + 1 :=
      wf_path_length hwf pu.depth pu hpu le_rfl
    have hlen_eq : pu.path.length = a.path.length := by omega
    have hinj := List.append_inj (hcpath2 ▸ hcpath : pu.path ++ [c.id] = a.path ++ [s0]) hlen_eq
    have hpua : pu = a := wf_path_inj hwf pu hpu a ha hinj.1
    have hcid : c.id = s0 := by simpa using hinj.2
    have hcparent : c.parent_id = some a.id := by
      rw [hpid, ← hpuid, hpua]
    refine ⟨c, hc, hcparent, ?_, ?_, ?_⟩
    · have : c.path <+: d.path := by
        refine ⟨rest, ?_⟩
        rw [hcpath, ← hsuf]
        simp
      simpa [pathDescOf] using this
    · unfold directChildBucket
      rw [if_neg hne, if_pos (by omega : a.depth < d.path.length)]
      cases hfind : db.users.find?
          (fun bu => bu.path = bucketPath a.path a.depth d.path) with
      | none =>
        exfalso
        have hnone := List.find?_eq_none.mp hfind c hc
        apply hnone
        simp [hbucket, hcpath]
      | some u0 =>
        have hu0path : u0.path = bucketPath a.path a.depth d.path := by
          simpa using List.find?_some hfind
        have hu0mem := List.mem_of_find?_eq_some hfind
        have hu0c : u0 = c :=
          wf_path_inj hwf u0 hu0mem c hc (by rw [hu0path, hbucket, hcpath])
        rw [hu0c]
        rfl
    · intro c2 hc2 hc2par hc2desc
      rcases parentOk_cases (hwf.2 c2 hc2) with ⟨hnone, _, _⟩ |
        ⟨p2, pu2, hpid2, hpu2, hpuid2, hc2path, _⟩
      · rw [hc2par] at hnone
        exact Option.noConfusion hnone
      · have hp2 : p2 = a.id := by
          rw [hc2par] at hpid2
          injection hpid2 with hv
          exact hv.symm
        have hpu2a : pu2 = a := hwf.1 pu2 hpu2 a ha (by rw [hpuid2, hp2])
        have hpre2 : c2.path <+: d.path := by
          simpa [pathDescOf] using hc2desc
        obtain ⟨t, ht⟩ := hpre2
        have hsplit : c2.id :: t = s0 :: rest := by
          have h9 : a.path ++ (c2.id :: t) = a.path ++ (s0 :: rest) := by
            rw [hsuf, ← ht, hc2path, hpu2a]
            simp
          exact List.append_cancel_left h9
        have hc2id : c2.id = s0 := by injection hsplit
        exact hwf.1 c2 hc2 c hc (by rw [hc2id, hcid])

/-- C8 witness: in the three-level scenario tree, the bucket of grandchild 3
under root 1 is the unique direct child 2, and the root buckets to itself. -/
theorem C8_direct_child_bucket_witness :
    (WFTree scDb.users ∧ scA ∈ scDb.users ∧ scB ∈ scDb.users ∧
     pathDescOf scB.path scA.path = true ∧ scB.id ≠ scA.id) ∧
    directChildBucket scDb scA scA = some scA.id ∧
    (∃ c ∈ scDb.users, c.parent_id = some scA.id ∧
      pathDescOf scB.path c.path = true ∧
      directChildBucket scDb scA scB = some c.id ∧
      ∀ c2 ∈ scDb.users, c2.parent_id = some scA.id →
        pathDescOf scB.path c2.path = true → c2 = c) :=
  ⟨⟨by decide, by decide, by decide, by decide, by decide⟩,
   (C8_direct_child_bucket scDb scA scB (by decide) (by decide) (by decide)
     (by decide) (by decide)).1,
   (C8_direct_child_bucket scDb scA scB (by decide) (by decide) (by decide)
     (by decide) (by decide)).2⟩

end Backend
